import Mathlib

/-!
Verification of the OpenTUI accessibility bridge (Zig core).

This file shallowly embeds the accessibility node store from
`src/packages/core/src/zig/accessibility/` — the `AccessibilityNode`
record (node.zig), the FFI `NodeData` snapshot and enumerations
(types.zig), and the `AccessibilityBridge` store operations
(bridge.zig: upsertNode, removeNode, setFocus, announce,
notifyPropertyChanged, clear, tick, setEnabled) — and proves or refutes
the specification's claims about it.

Modelling conventions:
- Zig strings (`[]const u8`) become `String`; ownership/dupe/free are
  memory management with no observable effect on values and are dropped,
  except where an allocation can fail (modelled separately for the
  atomicity claim).
- `std.StringHashMap(*AccessibilityNode)` becomes an association list
  `List (String × AccessibilityNode)`; in-place mutation through the
  stored pointer becomes an entry update.
- `f64` numeric fields (`min_value`/`max_value`/`current_value`) are
  compared only with `!=` in the source; they are modelled as `Int`
  (exact values; IEEE NaN and negative-zero edge cases are outside the
  model).
- The platform backend (`self.platform.*` calls) is modelled as an
  event trace appended to the bridge state; the stub/placeholder
  backends always return success, so backend calls are modelled as
  non-failing.
-/

namespace OpenTUI

/-- `types.Role` (types.zig): closed role enumeration, `enum(u32)`. -/
inductive Role where
  | none | button | checkbox | textbox | radio | combobox | list | list_item
  | menu | menu_item | menu_bar | tab | tab_list | tab_panel | dialog | alert
  | progressbar | slider | scrollbar | separator | group | image | link
  | heading | paragraph | region | application | window | tree | tree_item
  | grid | grid_cell | row | column_header | row_header | tooltip | status
  | toolbar | search | form | article | document | custom
  deriving DecidableEq, Repr

/-- `types.LiveSetting` (types.zig): `enum(u8) { off = 0, polite = 1, assertive = 2 }`. -/
inductive LiveSetting where
  | off | polite | assertive
  deriving DecidableEq, Repr

/-- `types.Orientation` (types.zig): `enum(u8) { horizontal = 0, vertical = 1 }`. -/
inductive Orientation where
  | horizontal | vertical
  deriving DecidableEq, Repr

/-- `types.Property` (types.zig): property identifiers for change events, `enum(u32)`. -/
inductive Property where
  | name | value | description | role | state | bounds | hint | level
  | min_value | max_value | current_value
  deriving DecidableEq, Repr

/-- `types.Rect` (types.zig): bounding rectangle, `x,y : i32`, `width,height : u32`. -/
structure Rect where
  x : Int
  y : Int
  width : Nat
  height : Nat
  deriving DecidableEq, Repr

/-- `types.StateFlags` (types.zig): `packed struct(u32)` of boolean state bits. -/
structure StateFlags where
  checked : Bool := false
  selected : Bool := false
  expanded : Bool := false
  disabled : Bool := false
  readonly : Bool := false
  required : Bool := false
  invalid : Bool := false
  pressed : Bool := false
  focusable : Bool := false
  focused : Bool := false
  hidden : Bool := false
  busy : Bool := false
  modal : Bool := false
  multiselectable : Bool := false
  deriving DecidableEq, Repr

/-- `types.NodeData` (types.zig): the FFI snapshot record sent per node on
every upsert. Pointer/length pairs for optional strings become
`Option String` (matching the `getName`/`getValue`/... helpers). -/
structure NodeData where
  id : String
  role : Role
  name : Option String := Option.none
  value : Option String := Option.none
  description : Option String := Option.none
  hint : Option String := Option.none
  rect : Rect
  state_flags : StateFlags
  parent_id : Option String := Option.none
  child_count : Nat := 0
  live_setting : LiveSetting
  orientation : Orientation
  level : Nat := 0
  min_value : Int := 0
  max_value : Int := 0
  current_value : Int := 0
  deriving DecidableEq, Repr

/-- `AccessibilityNode` (node.zig): the canonical in-store node record.
The `allocator` and opaque `platform_data` fields are memory-management
details with no observable store behaviour and are dropped. -/
structure AccessibilityNode where
  id : String
  role : Role
  name : Option String
  value : Option String
  description : Option String
  hint : Option String
  rect : Rect
  state : StateFlags
  live : LiveSetting
  orientation : Orientation
  level : Nat
  min_value : Int
  max_value : Int
  current_value : Int
  parent_id : Option String
  children_ids : List String
  dirty : Bool
  deriving DecidableEq, Repr

namespace AccessibilityNode

/-- `AccessibilityNode.init` (node.zig): build a fresh node from FFI data;
all string fields are duped (copied by value here), `children_ids`
starts empty, `dirty` starts true. Allocation failure is modelled
separately in `Bridge.upsertNodeAlloc`. -/
def init (data : NodeData) : AccessibilityNode where
  id := data.id
  role := data.role
  name := data.name
  value := data.value
  description := data.description
  hint := data.hint
  rect := data.rect
  state := data.state_flags
  live := data.live_setting
  orientation := data.orientation
  level := data.level
  min_value := data.min_value
  max_value := data.max_value
  current_value := data.current_value
  parent_id := data.parent_id
  children_ids := []
  dirty := true

/-- The per-field diff computed by `AccessibilityNode.updateFromData`
(node.zig): true iff at least one of the diffed fields differs from the
snapshot. These are exactly the fields the source compares; `child_count`
is not diffed. -/
def changedFrom (self : AccessibilityNode) (data : NodeData) : Bool :=
  decide (self.role ≠ data.role) ||
  decide (self.name ≠ data.name) ||
  decide (self.value ≠ data.value) ||
  decide (self.description ≠ data.description) ||
  decide (self.hint ≠ data.hint) ||
  decide (self.rect ≠ data.rect) ||
  decide (self.state ≠ data.state_flags) ||
  decide (self.live ≠ data.live_setting) ||
  decide (self.orientation ≠ data.orientation) ||
  decide (self.level ≠ data.level) ||
  decide (self.min_value ≠ data.min_value) ||
  decide (self.max_value ≠ data.max_value) ||
  decide (self.current_value ≠ data.current_value) ||
  decide (self.parent_id ≠ data.parent_id)

/-- `AccessibilityNode.updateFromData` (node.zig): copy every differing
field from the snapshot (copying an equal field is the identity, so the
net effect is setting each diffed field to the snapshot's value), mark
`dirty` if anything changed, and return whether anything changed. -/
def updateFromData (self : AccessibilityNode) (data : NodeData) :
    AccessibilityNode × Bool :=
  let changed := self.changedFrom data
  ({ self with
      role := data.role
      name := data.name
      value := data.value
      description := data.description
      hint := data.hint
      rect := data.rect
      state := data.state_flags
      live := data.live_setting
      orientation := data.orientation
      level := data.level
      min_value := data.min_value
      max_value := data.max_value
      current_value := data.current_value
      parent_id := data.parent_id
      dirty := self.dirty || changed },
   changed)

/-- `AccessibilityNode.addChild` (node.zig): append a child id and mark dirty. -/
def addChild (self : AccessibilityNode) (child_id : String) : AccessibilityNode :=
  { self with children_ids := self.children_ids ++ [child_id], dirty := true }

/-- `AccessibilityNode.removeChild` (node.zig): remove the first occurrence
of `child_id` from `children_ids` and mark dirty; no-op when absent. -/
def removeChild (self : AccessibilityNode) (child_id : String) : AccessibilityNode :=
  if child_id ∈ self.children_ids then
    { self with children_ids := self.children_ids.erase child_id, dirty := true }
  else
    self

end AccessibilityNode

/-! ### The node map

`std.StringHashMap(*AccessibilityNode)` modelled as an association list.
`mapGet`/`mapPut`/`mapRemove` mirror `get`/`put`/`fetchRemove`;
`mapModify` models mutating the node in place through the pointer
returned by `get`. -/

/-- `nodes.get(id)`: first entry with the given key. -/
def mapGet : List (String × AccessibilityNode) → String → Option AccessibilityNode
  | [], _ => Option.none
  | (k, v) :: rest, id => if k = id then some v else mapGet rest id

/-- `nodes.put(id, n)`: replace the entry for `id` if present, else append. -/
def mapPut : List (String × AccessibilityNode) → String → AccessibilityNode →
    List (String × AccessibilityNode)
  | [], id, n => [(id, n)]
  | (k, v) :: rest, id, n =>
    if k = id then (k, n) :: rest else (k, v) :: mapPut rest id n

/-- In-place mutation of the node stored under `id` (no-op when absent). -/
def mapModify : List (String × AccessibilityNode) → String →
    (AccessibilityNode → AccessibilityNode) → List (String × AccessibilityNode)
  | [], _, _ => []
  | (k, v) :: rest, id, f =>
    if k = id then (k, f v) :: rest else (k, v) :: mapModify rest id f

/-- `nodes.fetchRemove(id)`, map part: drop the first entry with the key. -/
def mapRemove : List (String × AccessibilityNode) → String →
    List (String × AccessibilityNode)
  | [], _ => []
  | (k, v) :: rest, id => if k = id then rest else (k, v) :: mapRemove rest id

/-- The key list of the node map. -/
def mapKeys (m : List (String × AccessibilityNode)) : List String :=
  m.map Prod.fst

theorem mapGet_eq_none_iff (m : List (String × AccessibilityNode)) (id : String) :
    mapGet m id = Option.none ↔ id ∉ mapKeys m := by
  induction m with
  | nil => simp [mapGet, mapKeys]
  | cons kv rest ih =>
    obtain ⟨k, v⟩ := kv
    by_cases h : k = id
    · subst h
      simp [mapGet, mapKeys]
    · simp [mapGet, mapKeys, h, ih, Ne.symm h]

theorem mapGet_mapPut_self (m : List (String × AccessibilityNode)) (id : String)
    (n : AccessibilityNode) : mapGet (mapPut m id n) id = some n := by
  induction m with
  | nil => simp [mapGet, mapPut]
  | cons kv rest ih =>
    obtain ⟨k, v⟩ := kv
    by_cases h : k = id <;> simp [mapGet, mapPut, h, ih]

theorem mapGet_mapPut_ne (m : List (String × AccessibilityNode)) (id id' : String)
    (n : AccessibilityNode) (h : id' ≠ id) :
    mapGet (mapPut m id n) id' = mapGet m id' := by
  induction m with
  | nil => simp [mapGet, mapPut, Ne.symm h]
  | cons kv rest ih =>
    obtain ⟨k, v⟩ := kv
    by_cases hk : k = id
    · subst hk
      simp [mapGet, mapPut, Ne.symm h]
    · simp [mapGet, mapPut, hk, ih]

theorem mapGet_mapModify_self (m : List (String × AccessibilityNode)) (id : String)
    (f : AccessibilityNode → AccessibilityNode) :
    mapGet (mapModify m id f) id = (mapGet m id).map f := by
  induction m with
  | nil => simp [mapGet, mapModify]
  | cons kv rest ih =>
    obtain ⟨k, v⟩ := kv
    by_cases h : k = id <;> simp [mapGet, mapModify, h, ih]

theorem mapGet_mapModify_ne (m : List (String × AccessibilityNode)) (id id' : String)
    (f : AccessibilityNode → AccessibilityNode) (h : id' ≠ id) :
    mapGet (mapModify m id f) id' = mapGet m id' := by
  induction m with
  | nil => simp [mapGet, mapModify]
  | cons kv rest ih =>
    obtain ⟨k, v⟩ := kv
    by_cases hk : k = id
    · subst hk
      simp [mapGet, mapModify, Ne.symm h]
    · simp [mapGet, mapModify, hk, ih]

theorem mapGet_mapRemove_ne (m : List (String × AccessibilityNode)) (id id' : String)
    (h : id' ≠ id) : mapGet (mapRemove m id) id' = mapGet m id' := by
  induction m with
  | nil => simp [mapGet, mapRemove]
  | cons kv rest ih =>
    obtain ⟨k, v⟩ := kv
    by_cases hk : k = id
    · subst hk
      simp [mapGet, mapRemove, Ne.symm h]
    · simp [mapGet, mapRemove, hk, ih]

theorem mapGet_mapRemove_self (m : List (String × AccessibilityNode)) (id : String)
    (hnd : (mapKeys m).Nodup) : mapGet (mapRemove m id) id = Option.none := by
  induction m with
  | nil => simp [mapGet, mapRemove]
  | cons kv rest ih =>
    obtain ⟨k, v⟩ := kv
    simp only [mapKeys, List.map_cons, List.nodup_cons] at hnd
    by_cases hk : k = id
    · subst hk
      rw [mapRemove, if_pos rfl, (mapGet_eq_none_iff rest k).2 hnd.1]
    · rw [mapRemove, if_neg hk, mapGet, if_neg hk, ih hnd.2]

theorem mapKeys_mapModify (m : List (String × AccessibilityNode)) (id : String)
    (f : AccessibilityNode → AccessibilityNode) :
    mapKeys (mapModify m id f) = mapKeys m := by
  induction m with
  | nil => rfl
  | cons kv rest ih =>
    obtain ⟨k, v⟩ := kv
    by_cases h : k = id
    · simp [mapModify, mapKeys, h]
    · simp only [mapModify, if_neg h, mapKeys, List.map_cons]
      exact congrArg (List.cons k) ih

theorem mapKeys_mapPut_mem (m : List (String × AccessibilityNode)) (id : String)
    (n : AccessibilityNode) (h : id ∈ mapKeys m) :
    mapKeys (mapPut m id n) = mapKeys m := by
  induction m with
  | nil => simp [mapKeys] at h
  | cons kv rest ih =>
    obtain ⟨k, v⟩ := kv
    by_cases hk : k = id
    · simp [mapPut, mapKeys, hk]
    · simp only [mapKeys, List.map_cons, List.mem_cons] at h
      rcases h with h | h
      · exact absurd h.symm hk
      · simp only [mapPut, if_neg hk, mapKeys, List.map_cons]
        exact congrArg (List.cons k) (ih h)

theorem mapKeys_mapPut_not_mem (m : List (String × AccessibilityNode)) (id : String)
    (n : AccessibilityNode) (h : id ∉ mapKeys m) :
    mapKeys (mapPut m id n) = mapKeys m ++ [id] := by
  induction m with
  | nil => simp [mapPut, mapKeys]
  | cons kv rest ih =>
    obtain ⟨k, v⟩ := kv
    simp only [mapKeys, List.map_cons, List.mem_cons] at h
    push_neg at h
    simp only [mapPut, if_neg (Ne.symm h.1), mapKeys, List.map_cons, List.cons_append]
    exact congrArg (List.cons k) (ih h.2)

theorem mapKeys_mapRemove_sublist (m : List (String × AccessibilityNode))
    (id : String) : (mapKeys (mapRemove m id)).Sublist (mapKeys m) := by
  induction m with
  | nil => simp [mapRemove, mapKeys]
  | cons kv rest ih =>
    obtain ⟨k, v⟩ := kv
    by_cases h : k = id
    · simp only [mapRemove, if_pos h, mapKeys, List.map_cons]
      exact List.sublist_cons_of_sublist _ (List.Sublist.refl _)
    · simp only [mapRemove, if_neg h, mapKeys, List.map_cons]
      exact List.Sublist.cons₂ _ ih

/-! ### The bridge -/

/-- A call forwarded to the platform backend (`PlatformBridge` in
platform.zig). The bridge records these as an event trace; the stub and
placeholder backends always succeed, so the calls are modelled as
non-failing. `addNode`/`updateNode`/`removeNode` receive the node by
pointer; the id identifies it here. -/
inductive PlatformEvent where
  | addNode (id : String)
  | updateNode (id : String)
  | removeNode (id : String)
  | notifyFocusChanged (id : Option String)
  | notifyPropertyChanged (id : String) (property : Property)
  | announce (message : String) (priority : LiveSetting)
  | tick
  deriving DecidableEq, Repr

/-- `AccessibilityBridge` (bridge.zig): the node store. The mutex and
allocator are dropped (single-threaded model, memory management not
observable); the platform backend is replaced by the `trace` of calls
made to it. -/
structure Bridge where
  nodes : List (String × AccessibilityNode)
  root_id : Option String
  focused_id : Option String
  enabled : Bool
  trace : List PlatformEvent
  deriving DecidableEq, Repr

namespace Bridge

/-- `AccessibilityBridge.init` (bridge.zig): empty store, enabled. -/
def initBridge : Bridge where
  nodes := []
  root_id := Option.none
  focused_id := Option.none
  enabled := true
  trace := []

/-- `AccessibilityBridge.setEnabled` (bridge.zig): sets the flag only. -/
def setEnabled (self : Bridge) (e : Bool) : Bridge :=
  { self with enabled := e }

/-- `AccessibilityBridge.upsertNode` (bridge.zig). If disabled: no-op.
If the id is known: diff-update the stored node in place and forward
`updateNode` only when something changed. If unseen: create the node,
put it in the map, forward `addNode`, then link it under its parent
(when the parent is live) or set it as root (when `parent_id` is null). -/
def upsertNode (self : Bridge) (data : NodeData) : Bridge :=
  if !self.enabled then self else
  match mapGet self.nodes data.id with
  | some existing =>
    let ub := existing.updateFromData data
    let s1 := { self with nodes := mapPut self.nodes data.id ub.1 }
    if ub.2 then { s1 with trace := s1.trace ++ [.updateNode data.id] } else s1
  | Option.none =>
    let node := AccessibilityNode.init data
    let s1 := { self with nodes := mapPut self.nodes node.id node }
    let s2 := { s1 with trace := s1.trace ++ [.addNode node.id] }
    match data.parent_id with
    | some parent_id =>
      match mapGet s2.nodes parent_id with
      | some _ =>
        { s2 with nodes := mapModify s2.nodes parent_id (fun p => p.addChild node.id) }
      | Option.none => s2
    | Option.none =>
      { s2 with root_id := some node.id }

/-- `AccessibilityBridge.removeNode` (bridge.zig). If disabled or the id
is unknown: no-op. Otherwise: drop the entry, remove the id from the
(still live) parent's children, clear `root_id`/`focused_id` if they
named this node (forwarding `notifyFocusChanged(null)` in the focus
case), and forward `removeNode`. -/
def removeNode (self : Bridge) (id : String) : Bridge :=
  if !self.enabled then self else
  match mapGet self.nodes id with
  | Option.none => self
  | some node =>
    let s1 := { self with nodes := mapRemove self.nodes id }
    let s2 :=
      match node.parent_id with
      | some parent_id =>
        match mapGet s1.nodes parent_id with
        | some _ =>
          { s1 with nodes := mapModify s1.nodes parent_id (fun p => p.removeChild node.id) }
        | Option.none => s1
      | Option.none => s1
    let s3 := if s2.root_id = some id then { s2 with root_id := Option.none } else s2
    let s4 :=
      if s3.focused_id = some id then
        { s3 with focused_id := Option.none
                  trace := s3.trace ++ [.notifyFocusChanged Option.none] }
      else s3
    { s4 with trace := s4.trace ++ [.removeNode id] }

/-- `old_node.state.focused = false` (bridge.zig, setFocus): clear the
focused bit of a node. -/
def unfocusNode (n : AccessibilityNode) : AccessibilityNode :=
  { n with state := { n.state with focused := false } }

/-- `node.state.focused = true` (bridge.zig, setFocus): set the focused
bit of a node. -/
def focusNode (n : AccessibilityNode) : AccessibilityNode :=
  { n with state := { n.state with focused := true } }

/-- The first half of `AccessibilityBridge.setFocus` (bridge.zig):
clears the `focused` flag on the node named by the previous
`focused_id` (when still live) and nulls `focused_id`. -/
def clearFocusStep (self : Bridge) : Bridge :=
  match self.focused_id with
  | some old_id =>
    { self with
        nodes := mapModify self.nodes old_id unfocusNode
        focused_id := Option.none }
  | Option.none => self

/-- `AccessibilityBridge.setFocus` (bridge.zig). If disabled: no-op.
Clears the previous focus (`clearFocusStep`); then, for a non-null id
that is live, sets its `focused` flag, records it in `focused_id` and
forwards `notifyFocusChanged`; an unknown id sets nothing further; a
null id forwards `notifyFocusChanged(null)`. -/
def setFocus (self : Bridge) (id? : Option String) : Bridge :=
  if !self.enabled then self else
  let s1 := self.clearFocusStep
  match id? with
  | some id =>
    match mapGet s1.nodes id with
    | some _ =>
      { s1 with
          nodes := mapModify s1.nodes id focusNode
          focused_id := some id
          trace := s1.trace ++ [.notifyFocusChanged (some id)] }
    | Option.none => s1
  | Option.none => { s1 with trace := s1.trace ++ [.notifyFocusChanged Option.none] }

/-- `AccessibilityBridge.announce` (bridge.zig): gated on `enabled`,
then a stateless pass-through to the backend. -/
def announce (self : Bridge) (message : String) (priority : LiveSetting) : Bridge :=
  if !self.enabled then self else
  { self with trace := self.trace ++ [.announce message priority] }

/-- `AccessibilityBridge.notifyPropertyChanged` (bridge.zig): gated on
`enabled`; forwards to the backend only when the id is live. -/
def notifyPropertyChanged (self : Bridge) (id : String) (property : Property) : Bridge :=
  if !self.enabled then self else
  match mapGet self.nodes id with
  | some _ => { self with trace := self.trace ++ [.notifyPropertyChanged id property] }
  | Option.none => self

/-- `AccessibilityBridge.clear` (bridge.zig): NOT gated on `enabled`.
Forwards `removeNode` for every stored node (per-node backend errors
ignored), empties the map and nulls `root_id` and `focused_id`. -/
def clear (self : Bridge) : Bridge :=
  { self with
      nodes := []
      root_id := Option.none
      focused_id := Option.none
      trace := self.trace ++ self.nodes.map (fun kv => PlatformEvent.removeNode kv.2.id) }

/-- `AccessibilityBridge.tick` (bridge.zig): gated on `enabled`; gives
the backend its periodic polling point. -/
def tick (self : Bridge) : Bridge :=
  if !self.enabled then self else
  { self with trace := self.trace ++ [.tick] }

/-- `AccessibilityBridge.getNodeCount` (bridge.zig). -/
def getNodeCount (self : Bridge) : Nat :=
  self.nodes.length

end Bridge

/-- `accessibilityAnnounce` (bridge.zig FFI layer): coercion of the raw
priority byte into `types.LiveSetting` — `0 => .off, 1 => .polite,
2 => .assertive, else => .polite`. -/
def priorityToLiveSetting (priority : Nat) : LiveSetting :=
  match priority with
  | 0 => .off
  | 1 => .polite
  | 2 => .assertive
  | _ => .polite

/-- `accessibilityAnnounce` (bridge.zig FFI layer): coerce the priority
byte and call `bridge.announce`. -/
def accessibilityAnnounce (bridge : Bridge) (message : String) (priority : Nat) : Bridge :=
  bridge.announce message (priorityToLiveSetting priority)

/-! ### Operation sequences -/

/-- One store mutation, for reasoning about arbitrary operation
sequences against the bridge. -/
inductive StoreOp where
  | upsert (data : NodeData)
  | remove (id : String)
  | focus (id? : Option String)
  | clearAll
  deriving Repr

/-- Apply one operation to the bridge. -/
def applyOp (s : Bridge) : StoreOp → Bridge
  | .upsert data => s.upsertNode data
  | .remove id => s.removeNode id
  | .focus id? => s.setFocus id?
  | .clearAll => s.clear

/-- Apply a sequence of operations, left to right. -/
def applyOps (s : Bridge) (ops : List StoreOp) : Bridge :=
  ops.foldl applyOp s

/-! ### Allocation-failure model of upsert (new-node path)

`upsertNode` performs several fallible allocations. Grouped by
observable effect on the store, the failure points in the new-node path
are: any allocation inside `AccessibilityNode.init` (node create and
string dupes — `errdefer` frees what was allocated, the store is
untouched); the `nodes.put` insertion (on failure the map is
unchanged); the allocations inside `parent.addChild` (child-id dupe and
children-array growth — by then the node is already in the map); and
the dupe of the id stored into `root_id` (likewise after the map
insertion). On any failure the error propagates out of `upsertNode`,
whose `errdefer node.deinit()` frees the node but does NOT remove it
from the map. -/

/-- A fallible allocation in the new-node path of `upsertNode`,
grouped by observable effect. -/
inductive AllocPoint where
  | nodeInit
  | mapPut
  | parentChild
  | rootDupe
  deriving DecidableEq, Repr

/-- `AccessibilityBridge.upsertNode` (bridge.zig) instrumented with an
allocation oracle: `failPt = some p` makes the allocation at point `p`
fail if it is reached. Returns the resulting store and whether the call
succeeded (the FFI wrapper `accessibilityUpsertNode` turns an error into
`false`). The update path's allocations are outside the scope of the
new-node atomicity claim and are not instrumented. -/
def Bridge.upsertNodeAlloc (self : Bridge) (data : NodeData) (failPt : Option AllocPoint) :
    Bridge × Bool :=
  if !self.enabled then (self, true) else
  match mapGet self.nodes data.id with
  | some existing =>
    let ub := existing.updateFromData data
    let s1 := { self with nodes := mapPut self.nodes data.id ub.1 }
    if ub.2 then ({ s1 with trace := s1.trace ++ [.updateNode data.id] }, true)
    else (s1, true)
  | Option.none =>
    if failPt = some .nodeInit then (self, false) else
    let node := AccessibilityNode.init data
    if failPt = some .mapPut then (self, false) else
    let s1 := { self with nodes := mapPut self.nodes node.id node }
    let s2 := { s1 with trace := s1.trace ++ [.addNode node.id] }
    match data.parent_id with
    | some parent_id =>
      match mapGet s2.nodes parent_id with
      | some _ =>
        if failPt = some .parentChild then (s2, false) else
        ({ s2 with nodes := mapModify s2.nodes parent_id (fun p => p.addChild node.id) }, true)
      | Option.none => (s2, true)
    | Option.none =>
      if failPt = some .rootDupe then (s2, false) else
      ({ s2 with root_id := some node.id }, true)

/-- With no allocation failure the instrumented upsert agrees with
`Bridge.upsertNode` and reports success. -/
theorem upsertNodeAlloc_none (self : Bridge) (data : NodeData) :
    self.upsertNodeAlloc data Option.none = (self.upsertNode data, true) := by
  unfold Bridge.upsertNodeAlloc Bridge.upsertNode
  by_cases he : self.enabled
  · simp only [he, Bool.not_true, Bool.false_eq_true, if_false]
    cases hg : mapGet self.nodes data.id <;> simp
    · cases data.parent_id <;> simp
      cases mapGet (mapPut self.nodes (AccessibilityNode.init data).id
        (AccessibilityNode.init data)) _ <;> simp
    · cases (_ : AccessibilityNode).updateFromData data
      simp only
      split <;> simp
  · simp [he]

/-! ### Concrete sample data -/

/-- A concrete snapshot builder used by the concrete test vectors:
role `button`, unit rect at the origin, all state flags false except a
caller-chosen `focused` bit. -/
def sampleSnap (id : String) (parent : Option String) (focusedF : Bool)
    (nameF : Option String) : NodeData where
  id := id
  role := .button
  name := nameF
  rect := ⟨0, 0, 1, 1⟩
  state_flags := { focused := focusedF }
  parent_id := parent
  live_setting := .off
  orientation := .horizontal
/-! ### Case equations for the bridge operations -/

theorem upsertNode_disabled (s : Bridge) (d : NodeData) (h : s.enabled = false) :
    s.upsertNode d = s := by
  simp [Bridge.upsertNode, h]

theorem upsertNode_existing (s : Bridge) (d : NodeData) (n : AccessibilityNode)
    (he : s.enabled = true) (hg : mapGet s.nodes d.id = some n) :
    s.upsertNode d =
      if (n.updateFromData d).2 then
        { s with nodes := mapPut s.nodes d.id (n.updateFromData d).1
                 trace := s.trace ++ [.updateNode d.id] }
      else
        { s with nodes := mapPut s.nodes d.id (n.updateFromData d).1 } := by
  rw [Bridge.upsertNode]
  simp only [he, Bool.not_true, Bool.false_eq_true, if_false, hg]

theorem upsertNode_new_root (s : Bridge) (d : NodeData) (he : s.enabled = true)
    (hg : mapGet s.nodes d.id = Option.none) (hp : d.parent_id = Option.none) :
    s.upsertNode d =
      { s with nodes := mapPut s.nodes d.id (AccessibilityNode.init d)
               trace := s.trace ++ [.addNode d.id]
               root_id := some d.id } := by
  rw [Bridge.upsertNode]
  simp only [he, Bool.not_true, Bool.false_eq_true, if_false, hg, AccessibilityNode.init, hp]

theorem upsertNode_new_parent_live (s : Bridge) (d : NodeData) (pid : String)
    (q : AccessibilityNode) (he : s.enabled = true)
    (hg : mapGet s.nodes d.id = Option.none) (hp : d.parent_id = some pid)
    (hq : mapGet (mapPut s.nodes d.id (AccessibilityNode.init d)) pid = some q) :
    s.upsertNode d =
      { s with
          nodes := mapModify (mapPut s.nodes d.id (AccessibilityNode.init d)) pid
            (fun p => p.addChild d.id)
          trace := s.trace ++ [.addNode d.id] } := by
  rw [Bridge.upsertNode]
  simp only [he, Bool.not_true, Bool.false_eq_true, if_false, hg, hp]
  have hid : (AccessibilityNode.init d).id = d.id := rfl
  rw [hid] ; rw [show mapGet (mapPut s.nodes d.id (AccessibilityNode.init d)) pid = some q from hq]

theorem upsertNode_new_parent_dead (s : Bridge) (d : NodeData) (pid : String)
    (he : s.enabled = true)
    (hg : mapGet s.nodes d.id = Option.none) (hp : d.parent_id = some pid)
    (hq : mapGet (mapPut s.nodes d.id (AccessibilityNode.init d)) pid = Option.none) :
    s.upsertNode d =
      { s with nodes := mapPut s.nodes d.id (AccessibilityNode.init d)
               trace := s.trace ++ [.addNode d.id] } := by
  rw [Bridge.upsertNode]
  simp only [he, Bool.not_true, Bool.false_eq_true, if_false, hg, hp]
  have hid : (AccessibilityNode.init d).id = d.id := rfl
  rw [hid] ; rw [show mapGet (mapPut s.nodes d.id (AccessibilityNode.init d)) pid = Option.none from hq]

theorem removeNode_disabled (s : Bridge) (id : String) (h : s.enabled = false) :
    s.removeNode id = s := by
  simp [Bridge.removeNode, h]

theorem removeNode_unknown (s : Bridge) (id : String)
    (hg : mapGet s.nodes id = Option.none) : s.removeNode id = s := by
  rw [Bridge.removeNode]
  split
  · rfl
  · rw [hg]

/-- The node map after removing a node with no parent reference: just
drop the entry. -/
theorem removeNode_nodes_noparent (s : Bridge) (id : String)
    (node : AccessibilityNode) (he : s.enabled = true)
    (hg : mapGet s.nodes id = some node) (hpp : node.parent_id = Option.none) :
    (s.removeNode id).nodes = mapRemove s.nodes id := by
  rw [Bridge.removeNode]
  simp only [he, Bool.not_true, Bool.false_eq_true, if_false, hg, hpp]
  split <;> split <;> rfl

/-- The node map after removing a node whose `parent_id` is not (or no
longer) live: just drop the entry. -/
theorem removeNode_nodes_parent_dead (s : Bridge) (id pid : String)
    (node : AccessibilityNode) (he : s.enabled = true)
    (hg : mapGet s.nodes id = some node) (hpp : node.parent_id = some pid)
    (hq : mapGet (mapRemove s.nodes id) pid = Option.none) :
    (s.removeNode id).nodes = mapRemove s.nodes id := by
  rw [Bridge.removeNode]
  simp only [he, Bool.not_true, Bool.false_eq_true, if_false, hg, hpp, hq]
  split <;> split <;> rfl

/-- The node map after removing a node whose parent is live: drop the
entry, then erase the removed node's id from the parent's children. -/
theorem removeNode_nodes_parent_live (s : Bridge) (id pid : String)
    (node q : AccessibilityNode) (he : s.enabled = true)
    (hg : mapGet s.nodes id = some node) (hpp : node.parent_id = some pid)
    (hq : mapGet (mapRemove s.nodes id) pid = some q) :
    (s.removeNode id).nodes =
      mapModify (mapRemove s.nodes id) pid (fun p => p.removeChild node.id) := by
  rw [Bridge.removeNode]
  simp only [he, Bool.not_true, Bool.false_eq_true, if_false, hg, hpp, hq]
  split <;> split <;> rfl

theorem removeNode_root_id (s : Bridge) (id : String) (node : AccessibilityNode)
    (he : s.enabled = true) (hg : mapGet s.nodes id = some node) :
    (s.removeNode id).root_id =
      if s.root_id = some id then Option.none else s.root_id := by
  rw [Bridge.removeNode]
  simp only [he, Bool.not_true, Bool.false_eq_true, if_false, hg]
  cases node.parent_id with
  | none => split <;> split <;> rfl
  | some pid =>
    cases hq : mapGet (mapRemove s.nodes id) pid with
    | none => simp only [hq] ; split <;> split <;> rfl
    | some q => simp only [hq] ; split <;> split <;> rfl

theorem removeNode_focused_id (s : Bridge) (id : String) (node : AccessibilityNode)
    (he : s.enabled = true) (hg : mapGet s.nodes id = some node) :
    (s.removeNode id).focused_id =
      if s.focused_id = some id then Option.none else s.focused_id := by
  rw [Bridge.removeNode]
  simp only [he, Bool.not_true, Bool.false_eq_true, if_false, hg]
  cases node.parent_id with
  | none => split <;> split <;> rfl
  | some pid =>
    cases hq : mapGet (mapRemove s.nodes id) pid with
    | none => simp only [hq] ; split <;> split <;> rfl
    | some q => simp only [hq] ; split <;> split <;> rfl

theorem setFocus_disabled (s : Bridge) (id? : Option String) (h : s.enabled = false) :
    s.setFocus id? = s := by
  simp [Bridge.setFocus, h]

theorem clearFocusStep_nodes_keys (s : Bridge) :
    mapKeys s.clearFocusStep.nodes = mapKeys s.nodes := by
  rw [Bridge.clearFocusStep]
  cases s.focused_id with
  | none => rfl
  | some old => exact mapKeys_mapModify _ _ _

theorem clearFocusStep_focused_id (s : Bridge) :
    s.clearFocusStep.focused_id = Option.none ∨
      (s.focused_id = Option.none ∧ s.clearFocusStep = s) := by
  rw [Bridge.clearFocusStep]
  cases h : s.focused_id with
  | none => exact Or.inr ⟨rfl, rfl⟩
  | some old => exact Or.inl rfl

theorem setFocus_some_live (s : Bridge) (id : String) (q : AccessibilityNode)
    (he : s.enabled = true) (hq : mapGet s.clearFocusStep.nodes id = some q) :
    s.setFocus (some id) =
      { s.clearFocusStep with
          nodes := mapModify s.clearFocusStep.nodes id Bridge.focusNode
          focused_id := some id
          trace := s.clearFocusStep.trace ++ [.notifyFocusChanged (some id)] } := by
  rw [Bridge.setFocus]
  simp only [he, Bool.not_true, Bool.false_eq_true, if_false, hq]

theorem setFocus_some_dead (s : Bridge) (id : String)
    (he : s.enabled = true) (hq : mapGet s.clearFocusStep.nodes id = Option.none) :
    s.setFocus (some id) = s.clearFocusStep := by
  rw [Bridge.setFocus]
  simp only [he, Bool.not_true, Bool.false_eq_true, if_false, hq]

theorem setFocus_none_eq (s : Bridge) (he : s.enabled = true) :
    s.setFocus Option.none =
      { s.clearFocusStep with
          trace := s.clearFocusStep.trace ++ [.notifyFocusChanged Option.none] } := by
  rw [Bridge.setFocus]
  simp only [he, Bool.not_true, Bool.false_eq_true, if_false]

/-- Test vector: upsert a single rootless node whose snapshot carries
`state.focused = true`. -/
def cexFocusFlag : Bridge :=
  applyOps Bridge.initBridge [.upsert (sampleSnap "a" Option.none true Option.none)]

/-- Test vector: upsert "a" (focused = false in the snapshot), focus it,
then re-upsert the identical snapshot. -/
def cexRefreshFocused : Bridge :=
  applyOps Bridge.initBridge
    [.upsert (sampleSnap "a" Option.none false Option.none),
     .focus (some "a"),
     .upsert (sampleSnap "a" Option.none false Option.none)]

/-- C1 counterexample: the claimed focus-uniqueness invariant fails on
the code. (i) Upserting a snapshot with `state.focused = true` from the
empty enabled store yields a node with `focused = true` while
`focused_id` is null — so `focused_id` is not "non-null exactly when
such a node exists". (ii) Even with all snapshots carrying
`focused = false`, focusing "a" and then re-upserting it leaves
`focused_id = "a"` while no node has `focused = true`. -/
theorem C1_counterexample :
    ((mapGet cexFocusFlag.nodes "a").map (fun n => n.state.focused) = some true ∧
      cexFocusFlag.focused_id = Option.none) ∧
    ((mapGet cexRefreshFocused.nodes "a").map (fun n => n.state.focused) = some false ∧
      cexRefreshFocused.focused_id = some "a") := by
  refine ⟨⟨?_, ?_⟩, ⟨?_, ?_⟩⟩ <;> rfl

/-- Test vector: two rootless upserts, then re-upsert "b" with parent
"a". -/
def cexTwoRoots : Bridge :=
  applyOps Bridge.initBridge
    [.upsert (sampleSnap "a" Option.none false Option.none),
     .upsert (sampleSnap "b" Option.none false Option.none),
     .upsert (sampleSnap "b" (some "a") false Option.none)]

/-- C2 counterexample: the claimed root invariant fails on the code.
After upserting rootless "a", rootless "b", and then re-upserting "b"
with `parent_id = "a"`: `root_id` is `"b"`, but the node "b" has
`parent_id = some "a"` (not null), while "a" is a live node with null
`parent_id` that `root_id` does not name — refuting both that the root
node has null `parent_id` and that it is the only such node. -/
theorem C2_counterexample :
    cexTwoRoots.root_id = some "b" ∧
    (mapGet cexTwoRoots.nodes "b").map (fun n => n.parent_id) = some (some "a") ∧
    (mapGet cexTwoRoots.nodes "a").map (fun n => n.parent_id) = some Option.none := by
  refine ⟨?_, ?_, ?_⟩ <;> rfl

/-- Test vector: child upserted before its parent. -/
def cexChildFirst : Bridge :=
  applyOps Bridge.initBridge
    [.upsert (sampleSnap "c" (some "p") false Option.none),
     .upsert (sampleSnap "p" Option.none false Option.none)]

/-- C3 counterexample: the claimed parent/child consistency fails when a
child is upserted before its parent, an order the claim explicitly
includes. After upserting "c" with `parent_id = "p"` and then "p", node
"p" is live with an empty `children_ids`, yet "c" is a live node with
`parent_id = "p"` — nothing back-fills the parent's children list. -/
theorem C3_counterexample :
    (mapGet cexChildFirst.nodes "p").map (fun n => n.children_ids) = some [] ∧
    (mapGet cexChildFirst.nodes "c").map (fun n => n.parent_id) = some (some "p") := by
  refine ⟨?_, ?_⟩ <;> rfl

/-- Test vector: a store holding "c" whose upsert snapshot carried
`state.focused = true`, plus ordinary nodes "a" and "b"; then
`setFocus a; setFocus b; setFocus none`. -/
def cexStrayFocus : Bridge :=
  let s0 := applyOps Bridge.initBridge
    [.upsert (sampleSnap "c" Option.none true Option.none),
     .upsert (sampleSnap "a" Option.none false Option.none),
     .upsert (sampleSnap "b" Option.none false Option.none)]
  ((s0.setFocus (some "a")).setFocus (some "b")).setFocus Option.none

/-- C5 counterexample: with distinct nodes "a" and "b" present in an
enabled store, `setFocus a; setFocus b; setFocus none` does NOT leave
every node's focused flag false: a third node "c" whose upsert snapshot
carried `state.focused = true` keeps its flag, because `setFocus` only
clears the node named by `focused_id`. -/
theorem C5_counterexample :
    (mapGet cexStrayFocus.nodes "c").map (fun n => n.state.focused) = some true ∧
    cexStrayFocus.focused_id = Option.none ∧
    (mapGet cexStrayFocus.nodes "a").map (fun n => n.state.focused) = some false ∧
    (mapGet cexStrayFocus.nodes "b").map (fun n => n.state.focused) = some false := by
  refine ⟨?_, ?_, ?_, ?_⟩ <;> rfl

/-- Test vector: one node upserted, then the bridge disabled. -/
def cexDisabled : Bridge :=
  (applyOps Bridge.initBridge
    [.upsert (sampleSnap "a" Option.none false Option.none)]).setEnabled false

/-- C8 counterexample: while the bridge is disabled, `clear` does NOT
leave the node map unchanged — it is not gated on `enabled` and empties
the store (node count drops from 1 to 0); and re-enabling does NOT
start from an empty store — the node survives `setEnabled false;
setEnabled true` (it is "resurrected"). -/
theorem C8_counterexample :
    cexDisabled.enabled = false ∧
    cexDisabled.getNodeCount = 1 ∧
    cexDisabled.clear.getNodeCount = 0 ∧
    (cexDisabled.setEnabled true).getNodeCount = 1 := by
  refine ⟨?_, ?_, ?_, ?_⟩ <;> rfl

/-- Test vector for the allocation-failure bug: a fresh rootless node. -/
def c9Data : NodeData := sampleSnap "a" Option.none false Option.none

/-- C9: evaluation of the code at the failing input. Upserting the new
rootless node "a" into the empty enabled store, with the allocation
that dupes the id for `root_id` failing: the operation reports failure
(distinct failure result — this part the code honours), but the node
map is NOT as it was before the call: the entry for "a" is still in
the map (`nodes.put` happened and the `errdefer node.deinit()` frees
the node without unmapping it), i.e. a partially-linked node remains. -/
theorem C9_alloc_failure_partial_link :
    mapGet Bridge.initBridge.nodes "a" = Option.none ∧
    (Bridge.initBridge.upsertNodeAlloc c9Data (some .rootDupe)).2 = false ∧
    mapGet (Bridge.initBridge.upsertNodeAlloc c9Data (some .rootDupe)).1.nodes "a" =
      some (AccessibilityNode.init c9Data) ∧
    (Bridge.initBridge.upsertNodeAlloc c9Data (some .rootDupe)).1.root_id = Option.none := by
  refine ⟨?_, ?_, ?_, ?_⟩ <;> rfl
/-! ### C6: unknown-id soft no-op -/

/-- C6: unknown-ID soft no-op. For an id with no entry in the store,
`removeNode` and `notifyPropertyChanged` return the bridge completely
unchanged (same node map, hence same node count; same trace, hence no
backend call). Neither operation reaches a fallible call on this path
(`fetchRemove` misses, the `nodes.get` guard fails), so no error is
raised and the FFI wrappers report success. -/
theorem C6_unknown_id_soft_noop (s : Bridge) (id : String) (property : Property)
    (h : mapGet s.nodes id = Option.none) :
    s.removeNode id = s ∧ s.notifyPropertyChanged id property = s := by
  constructor
  · exact removeNode_unknown s id h
  · rw [Bridge.notifyPropertyChanged]
    split
    · rfl
    · rw [h]

/-- C6 witness: concrete instance — removing the never-upserted id "zz"
from a two-node store, and notifying a property change on it, both
leave the store untouched. -/
theorem C6_witness :
    cexChildFirst.removeNode "zz" = cexChildFirst ∧
    cexChildFirst.notifyPropertyChanged "zz" .name = cexChildFirst :=
  C6_unknown_id_soft_noop cexChildFirst "zz" .name (by rfl)

/-! ### C10: announce priority coercion -/

/-- C10: announce priority coercion at the FFI boundary.
`accessibilityAnnounce` maps priority byte 0 to `off`, 1 to `polite`,
2 to `assertive` and every other value to `polite`; and the whole call
only appends an announce event to the backend trace — the node map,
`root_id`, `focused_id` and `enabled` flag are untouched, and the
appended event depends only on the message, the priority and the
`enabled` flag, never on the node store. -/
theorem C10_announce_coercion (b : Bridge) (message : String) (p : Nat) :
    (accessibilityAnnounce b message p).nodes = b.nodes ∧
    (accessibilityAnnounce b message p).root_id = b.root_id ∧
    (accessibilityAnnounce b message p).focused_id = b.focused_id ∧
    (accessibilityAnnounce b message p).trace = b.trace ++
      (if b.enabled then [.announce message (priorityToLiveSetting p)] else []) ∧
    priorityToLiveSetting 0 = .off ∧
    priorityToLiveSetting 1 = .polite ∧
    priorityToLiveSetting 2 = .assertive ∧
    (p ≠ 0 → p ≠ 2 → priorityToLiveSetting p = .polite) := by
  refine ⟨?_, ?_, ?_, ?_, rfl, rfl, rfl, ?_⟩
  · rw [accessibilityAnnounce, Bridge.announce]
    by_cases he : b.enabled
    · simp [he]
    · simp [he]
  · rw [accessibilityAnnounce, Bridge.announce]
    by_cases he : b.enabled
    · simp [he]
    · simp [he]
  · rw [accessibilityAnnounce, Bridge.announce]
    by_cases he : b.enabled
    · simp [he]
    · simp [he]
  · rw [accessibilityAnnounce, Bridge.announce]
    by_cases he : b.enabled
    · simp [he]
    · simp [he]
  · intro h0 h2
    match p, h0, h2 with
    | 1, _, _ => rfl
    | n + 3, _, _ => rfl

/-- C10 witness: concrete instance at the out-of-range priority byte 7:
the coercion falls back to `polite`, exactly one announce event is
appended, and the node map is untouched. -/
theorem C10_witness :
    priorityToLiveSetting 7 = .polite ∧
    (accessibilityAnnounce cexChildFirst "hello" 7).nodes = cexChildFirst.nodes ∧
    (accessibilityAnnounce cexChildFirst "hello" 7).trace =
      cexChildFirst.trace ++ [.announce "hello" .polite] := by
  have h := C10_announce_coercion cexChildFirst "hello" 7
  refine ⟨h.2.2.2.2.2.2.2 (by decide) (by decide), h.1, ?_⟩
  rw [h.2.2.2.1]
  rfl

/-! ### C8 (amended): disabled-bridge behaviour -/

/-- C8 as amended: while the bridge is disabled, `upsert`, `remove`,
`setFocus`, `notifyPropertyChanged`, `announce` and `tick` return
success and leave the entire bridge (node map, `root_id`, `focused_id`,
trace) unchanged; but `clear` is not gated on the enabled flag and
empties the store even while disabled, and `setEnabled true` preserves
whatever the store holds — nodes present before disabling are still
there after re-enabling (they are only gone if `clear` was called in
between). -/
theorem C8_disabled_amended (s : Bridge) (h : s.enabled = false) :
    (∀ d, s.upsertNode d = s) ∧
    (∀ id, s.removeNode id = s) ∧
    (∀ id?, s.setFocus id? = s) ∧
    (∀ id property, s.notifyPropertyChanged id property = s) ∧
    (∀ message priority, s.announce message priority = s) ∧
    s.tick = s ∧
    (s.clear.nodes = [] ∧ s.clear.root_id = Option.none ∧
      s.clear.focused_id = Option.none) ∧
    ((s.setEnabled true).nodes = s.nodes ∧
      (s.setEnabled true).root_id = s.root_id ∧
      (s.setEnabled true).focused_id = s.focused_id) := by
  refine ⟨fun d => upsertNode_disabled s d h, fun id => removeNode_disabled s id h,
    fun id? => setFocus_disabled s id? h, ?_, ?_, ?_, ⟨rfl, rfl, rfl⟩, ⟨rfl, rfl, rfl⟩⟩
  · intro id property
    simp [Bridge.notifyPropertyChanged, h]
  · intro message priority
    simp [Bridge.announce, h]
  · simp [Bridge.tick, h]

/-- C8 witness: concrete instance on the one-node store disabled
mid-session. -/
theorem C8_witness :
    cexDisabled.upsertNode c9Data = cexDisabled ∧
    cexDisabled.removeNode "a" = cexDisabled ∧
    cexDisabled.tick = cexDisabled ∧
    cexDisabled.clear.nodes = [] ∧
    (cexDisabled.setEnabled true).nodes = cexDisabled.nodes := by
  have h := C8_disabled_amended cexDisabled rfl
  exact ⟨h.1 c9Data, h.2.1 "a", h.2.2.2.2.2.1, h.2.2.2.2.2.2.1.1, h.2.2.2.2.2.2.2.1⟩
/-! ### C4: diff suppression / idempotence -/

/-- The fields `updateFromData` diffs all agree between the stored node
and the snapshot (role, name, value, description, hint, rect, state
flags, live, orientation, level, min/max/current value, parent_id). -/
def snapshotUnchanged (n : AccessibilityNode) (d : NodeData) : Prop :=
  n.role = d.role ∧ n.name = d.name ∧ n.value = d.value ∧
  n.description = d.description ∧ n.hint = d.hint ∧ n.rect = d.rect ∧
  n.state = d.state_flags ∧ n.live = d.live_setting ∧
  n.orientation = d.orientation ∧ n.level = d.level ∧
  n.min_value = d.min_value ∧ n.max_value = d.max_value ∧
  n.current_value = d.current_value ∧ n.parent_id = d.parent_id

instance (n : AccessibilityNode) (d : NodeData) : Decidable (snapshotUnchanged n d) := by
  unfold snapshotUnchanged
  infer_instance

theorem changedFrom_eq_false_iff (n : AccessibilityNode) (d : NodeData) :
    n.changedFrom d = false ↔ snapshotUnchanged n d := by
  simp [AccessibilityNode.changedFrom, snapshotUnchanged, and_assoc]

theorem changedFrom_eq_true_iff (n : AccessibilityNode) (d : NodeData) :
    n.changedFrom d = true ↔ ¬ snapshotUnchanged n d := by
  rw [← changedFrom_eq_false_iff]
  cases n.changedFrom d <;> simp

/-- Diffing a node against a snapshot that matches it in every diffed
field reports "unchanged" and leaves the node exactly as it was. -/
theorem updateFromData_unchanged (n : AccessibilityNode) (d : NodeData)
    (h : snapshotUnchanged n d) : n.updateFromData d = (n, false) := by
  have hc : n.changedFrom d = false := (changedFrom_eq_false_iff n d).2 h
  obtain ⟨h1, h2, h3, h4, h5, h6, h7, h8, h9, h10, h11, h12, h13, h14⟩ := h
  rw [AccessibilityNode.updateFromData]
  simp only [hc, Bool.or_false]
  rw [← h1, ← h2, ← h3, ← h4, ← h5, ← h6, ← h7, ← h8, ← h9, ← h10, ← h11, ← h12,
    ← h13, ← h14]

theorem mapPut_self_of_get (m : List (String × AccessibilityNode)) (id : String)
    (n : AccessibilityNode) (h : mapGet m id = some n) : mapPut m id n = m := by
  induction m with
  | nil => simp [mapGet] at h
  | cons kv rest ih =>
    obtain ⟨k, v⟩ := kv
    by_cases hk : k = id
    · subst hk
      rw [mapGet, if_pos rfl, Option.some_inj] at h
      rw [mapPut, if_pos rfl, h]
    · rw [mapGet, if_neg hk] at h
      rw [mapPut, if_neg hk, ih h]

/-- C4: diff suppression / idempotence. For a node already in the
enabled store: upserting a snapshot whose every diffed field equals the
stored node's fields returns the bridge completely unchanged — same
node map (the node itself included) and same trace, i.e. no backend
call; upserting a snapshot in which at least one diffed field differs
appends exactly one `updateNode` backend call, replaces exactly the
diffed fields of that node (marking it dirty), and leaves every other
node, `root_id` and `focused_id` unchanged. -/
theorem C4_diff_suppression (s : Bridge) (d : NodeData) (n : AccessibilityNode)
    (he : s.enabled = true) (hn : mapGet s.nodes d.id = some n) :
    (snapshotUnchanged n d → s.upsertNode d = s) ∧
    (¬ snapshotUnchanged n d →
      (s.upsertNode d).trace = s.trace ++ [.updateNode d.id] ∧
      mapGet (s.upsertNode d).nodes d.id = some (n.updateFromData d).1 ∧
      (∀ id, id ≠ d.id → mapGet (s.upsertNode d).nodes id = mapGet s.nodes id) ∧
      (s.upsertNode d).root_id = s.root_id ∧
      (s.upsertNode d).focused_id = s.focused_id) := by
  constructor
  · intro h
    rw [upsertNode_existing s d n he hn, updateFromData_unchanged n d h]
    simp only [if_false, Bool.false_eq_true, mapPut_self_of_get s.nodes d.id n hn]
  · intro h
    have hc : (n.updateFromData d).2 = true := by
      rw [AccessibilityNode.updateFromData]
      exact (changedFrom_eq_true_iff n d).2 h
    rw [upsertNode_existing s d n he hn, if_pos hc]
    refine ⟨rfl, mapGet_mapPut_self _ _ _, fun id hid => mapGet_mapPut_ne _ _ _ _ hid,
      rfl, rfl⟩

/-- Test vector for C4: the spec §8 scenario — root "root" and child
"btn" named "Submit". -/
def c4Store : Bridge :=
  applyOps Bridge.initBridge
    [.upsert (sampleSnap "root" Option.none false Option.none),
     .upsert (sampleSnap "btn" (some "root") false (some "Submit"))]

/-- The node stored for "btn" in `c4Store`. -/
def c4Btn : AccessibilityNode :=
  AccessibilityNode.init (sampleSnap "btn" (some "root") false (some "Submit"))

/-- C4 witness: concrete instance — re-upserting "btn" with the
identical snapshot leaves the bridge unchanged (no backend call);
re-upserting it with name "Submit Now" appends exactly one `updateNode`
call. -/
theorem C4_witness :
    c4Store.upsertNode (sampleSnap "btn" (some "root") false (some "Submit")) = c4Store ∧
    (c4Store.upsertNode (sampleSnap "btn" (some "root") false (some "Submit Now"))).trace =
      c4Store.trace ++ [.updateNode "btn"] := by
  constructor
  · exact (C4_diff_suppression c4Store
      (sampleSnap "btn" (some "root") false (some "Submit")) c4Btn rfl rfl).1
      (by constructor <;> decide)
  · exact ((C4_diff_suppression c4Store
      (sampleSnap "btn" (some "root") false (some "Submit Now")) c4Btn rfl rfl).2
      (by intro h; exact absurd h.2.1 (by decide))).1
/-! ### C7: removal frame property -/

theorem removeChild_parent_id (n : AccessibilityNode) (c : String) :
    (n.removeChild c).parent_id = n.parent_id := by
  rw [AccessibilityNode.removeChild]
  split <;> rfl

/-- C7: removal frame property. For a parent `P` (stored under `pid`)
and a child `C` (stored under `cid ≠ pid`) with `C.parent_id = pid`,
removing `pid` from an enabled store with duplicate-free keys:
(1) `C` stays in the store and its `parent_id` still names the removed
id (orphaned, not cascaded); (2) the entry for `pid` is gone; (3) every
node other than `P` itself and the node `P.parent_id` names is exactly
as before; (4) the node `P.parent_id` names is changed only by
`removeChild P.id` (the erasure of `P`'s id from its children list,
which also marks it dirty). -/
theorem C7_removal_frame (s : Bridge) (pid cid : String)
    (P C : AccessibilityNode) (he : s.enabled = true)
    (hnd : (mapKeys s.nodes).Nodup)
    (hP : mapGet s.nodes pid = some P) (hC : mapGet s.nodes cid = some C)
    (hCP : C.parent_id = some pid) (hne : cid ≠ pid) :
    ((mapGet (s.removeNode pid).nodes cid).map (fun n => n.parent_id) =
      some (some pid)) ∧
    mapGet (s.removeNode pid).nodes pid = Option.none ∧
    (∀ id, id ≠ pid → P.parent_id ≠ some id →
      mapGet (s.removeNode pid).nodes id = mapGet s.nodes id) ∧
    (∀ pp PP, P.parent_id = some pp → pp ≠ pid → mapGet s.nodes pp = some PP →
      mapGet (s.removeNode pid).nodes pp = some (PP.removeChild P.id)) := by
  have hgone : mapGet (mapRemove s.nodes pid) pid = Option.none :=
    mapGet_mapRemove_self s.nodes pid hnd
  cases hpp : P.parent_id with
  | none =>
    have hnodes := removeNode_nodes_noparent s pid P he hP hpp
    rw [hnodes]
    refine ⟨?_, hgone, ?_, ?_⟩
    · rw [mapGet_mapRemove_ne s.nodes pid cid hne, hC]
      simp [hCP]
    · intro id hid _
      exact mapGet_mapRemove_ne s.nodes pid id hid
    · intro pp PP hp
      exact absurd hp (by simp)
  | some pp =>
    by_cases hppid : pp = pid
    · subst hppid
      have hnodes := removeNode_nodes_parent_dead s pp pp P he hP hpp hgone
      rw [hnodes]
      refine ⟨?_, hgone, ?_, ?_⟩
      · rw [mapGet_mapRemove_ne s.nodes pp cid hne, hC]
        simp [hCP]
      · intro id hid _
        exact mapGet_mapRemove_ne s.nodes pp id hid
      · intro pp2 PP hp hne2 _
        exact absurd (Option.some_inj.1 hp).symm hne2
    · have hlive : mapGet (mapRemove s.nodes pid) pp = mapGet s.nodes pp :=
        mapGet_mapRemove_ne s.nodes pid pp hppid
      cases hpl : mapGet s.nodes pp with
      | none =>
        have hnodes := removeNode_nodes_parent_dead s pid pp P he hP hpp
          (hlive.trans hpl)
        rw [hnodes]
        refine ⟨?_, hgone, ?_, ?_⟩
        · rw [mapGet_mapRemove_ne s.nodes pid cid hne, hC]
          simp [hCP]
        · intro id hid _
          exact mapGet_mapRemove_ne s.nodes pid id hid
        · intro pp2 PP hp _ hPP
          rw [← Option.some_inj.1 hp] at hPP
          rw [hPP] at hpl
          exact absurd hpl (by simp)
      | some PL =>
        have hnodes := removeNode_nodes_parent_live s pid pp P PL he hP hpp
          (hlive.trans hpl)
        rw [hnodes]
        constructor
        · by_cases hcpp : cid = pp
          · subst hcpp
            rw [mapGet_mapModify_self, mapGet_mapRemove_ne s.nodes pid cid hne, hC]
            simp [removeChild_parent_id, hCP]
          · rw [mapGet_mapModify_ne _ pp cid _ hcpp,
              mapGet_mapRemove_ne s.nodes pid cid hne, hC]
            simp [hCP]
        refine ⟨?_, ?_, ?_⟩
        · rw [mapGet_mapModify_ne _ pp pid _ (Ne.symm hppid), hgone]
        · intro id hid hid2
          have hidpp : id ≠ pp := fun hh => hid2 (congrArg some hh.symm)
          rw [mapGet_mapModify_ne _ pp id _ hidpp]
          exact mapGet_mapRemove_ne s.nodes pid id hid
        · intro pp2 PP hp _ hPP
          obtain rfl : pp = pp2 := Option.some_inj.1 hp
          rw [mapGet_mapModify_self, hlive, hPP]
          rfl

/-- Test vector for C7: parent "p" with child "c". -/
def c7Store : Bridge :=
  applyOps Bridge.initBridge
    [.upsert (sampleSnap "p" Option.none false Option.none),
     .upsert (sampleSnap "c" (some "p") false Option.none)]

/-- The node stored for "p" in `c7Store` (its children list holds "c"). -/
def c7P : AccessibilityNode :=
  (AccessibilityNode.init (sampleSnap "p" Option.none false Option.none)).addChild "c"

/-- The node stored for "c" in `c7Store`. -/
def c7C : AccessibilityNode :=
  AccessibilityNode.init (sampleSnap "c" (some "p") false Option.none)

/-- C7 witness: concrete instance — removing parent "p" leaves child
"c" in the store with `parent_id` still "p", and removes "p". -/
theorem C7_witness :
    (mapGet (c7Store.removeNode "p").nodes "c").map (fun n => n.parent_id) =
      some (some "p") ∧
    mapGet (c7Store.removeNode "p").nodes "p" = Option.none := by
  have h := C7_removal_frame c7Store "p" "c" c7P c7C rfl (by decide) rfl rfl rfl
    (by decide)
  exact ⟨h.1, h.2.1⟩
/-! ### C2 (amended): root liveness -/

theorem exists_get_mapPut (m : List (String × AccessibilityNode)) (id : String)
    (x : AccessibilityNode) (r : String) (h : ∃ n, mapGet m r = some n) :
    ∃ n, mapGet (mapPut m id x) r = some n := by
  by_cases hr : r = id
  · subst hr
    exact ⟨x, mapGet_mapPut_self m r x⟩
  · obtain ⟨n, hn⟩ := h
    exact ⟨n, (mapGet_mapPut_ne m id r x hr).trans hn⟩

theorem exists_get_mapModify (m : List (String × AccessibilityNode)) (id : String)
    (f : AccessibilityNode → AccessibilityNode) (r : String)
    (h : ∃ n, mapGet m r = some n) : ∃ n, mapGet (mapModify m id f) r = some n := by
  obtain ⟨n, hn⟩ := h
  by_cases hr : r = id
  · subst hr
    refine ⟨f n, ?_⟩
    rw [mapGet_mapModify_self m r f, hn]
    rfl
  · exact ⟨n, (mapGet_mapModify_ne m id r f hr).trans hn⟩

theorem clearFocusStep_root_id (s : Bridge) : s.clearFocusStep.root_id = s.root_id := by
  rw [Bridge.clearFocusStep]
  cases s.focused_id <;> rfl

theorem clearFocusStep_enabled (s : Bridge) : s.clearFocusStep.enabled = s.enabled := by
  rw [Bridge.clearFocusStep]
  cases s.focused_id <;> rfl

/-- The amended root invariant: `root_id` is null or names a live node. -/
def RootLive (s : Bridge) : Prop :=
  ∀ r, s.root_id = some r → ∃ n, mapGet s.nodes r = some n

theorem rootLive_upsertNode (s : Bridge) (d : NodeData) (h : RootLive s) :
    RootLive (s.upsertNode d) := by
  cases he : s.enabled
  · rw [upsertNode_disabled s d he]
    exact h
  · cases hg : mapGet s.nodes d.id with
    | some n =>
      intro r hr
      rw [upsertNode_existing s d n he hg] at hr ⊢
      split at hr <;> split <;>
        exact exists_get_mapPut s.nodes d.id _ r (h r hr)
    | none =>
      cases hp : d.parent_id with
      | none =>
        intro r hr
        rw [upsertNode_new_root s d he hg hp] at hr ⊢
        simp only at hr
        rw [Option.some_inj] at hr
        cases hr
        exact ⟨AccessibilityNode.init d, mapGet_mapPut_self s.nodes d.id _⟩
      | some pid =>
        cases hq : mapGet (mapPut s.nodes d.id (AccessibilityNode.init d)) pid with
        | some q =>
          intro r hr
          rw [upsertNode_new_parent_live s d pid q he hg hp hq] at hr ⊢
          exact exists_get_mapModify _ pid _ r
            (exists_get_mapPut s.nodes d.id _ r (h r hr))
        | none =>
          intro r hr
          rw [upsertNode_new_parent_dead s d pid he hg hp hq] at hr ⊢
          exact exists_get_mapPut s.nodes d.id _ r (h r hr)

theorem rootLive_removeNode (s : Bridge) (id : String) (h : RootLive s) :
    RootLive (s.removeNode id) := by
  cases he : s.enabled
  · rw [removeNode_disabled s id he]
    exact h
  · cases hg : mapGet s.nodes id with
    | none =>
      rw [removeNode_unknown s id hg]
      exact h
    | some node =>
      intro r hr
      rw [removeNode_root_id s id node he hg] at hr
      by_cases hroot : s.root_id = some id
      · rw [if_pos hroot] at hr
        exact absurd hr (by simp)
      · rw [if_neg hroot] at hr
        have hrid : r ≠ id := by
          intro hh
          rw [hh] at hr
          exact hroot hr
        obtain ⟨n, hn⟩ := h r hr
        have hn2 : mapGet (mapRemove s.nodes id) r = some n := by
          rw [mapGet_mapRemove_ne s.nodes id r hrid]
          exact hn
        cases hpp : node.parent_id with
        | none =>
          rw [removeNode_nodes_noparent s id node he hg hpp]
          exact ⟨n, hn2⟩
        | some pid =>
          cases hq : mapGet (mapRemove s.nodes id) pid with
          | none =>
            rw [removeNode_nodes_parent_dead s id pid node he hg hpp hq]
            exact ⟨n, hn2⟩
          | some q =>
            rw [removeNode_nodes_parent_live s id pid node q he hg hpp hq]
            exact exists_get_mapModify _ pid _ r ⟨n, hn2⟩

theorem rootLive_clearFocusStep (s : Bridge) (h : RootLive s) :
    RootLive s.clearFocusStep := by
  intro r hr
  rw [clearFocusStep_root_id] at hr
  rw [Bridge.clearFocusStep]
  cases s.focused_id with
  | none => exact h r hr
  | some old => exact exists_get_mapModify _ old _ r (h r hr)

theorem rootLive_setFocus (s : Bridge) (id? : Option String) (h : RootLive s) :
    RootLive (s.setFocus id?) := by
  cases he : s.enabled
  · rw [setFocus_disabled s id? he]
    exact h
  · have h1 := rootLive_clearFocusStep s h
    cases id? with
    | none =>
      intro r hr
      rw [setFocus_none_eq s he] at hr ⊢
      exact h1 r hr
    | some id =>
      cases hq : mapGet s.clearFocusStep.nodes id with
      | none =>
        rw [setFocus_some_dead s id he hq]
        exact h1
      | some q =>
        intro r hr
        rw [setFocus_some_live s id q he hq] at hr ⊢
        exact exists_get_mapModify _ id _ r (h1 r hr)

theorem rootLive_clear (s : Bridge) : RootLive s.clear := by
  intro r hr
  exact absurd hr (by simp [Bridge.clear])

theorem rootLive_applyOp (s : Bridge) (op : StoreOp) (h : RootLive s) :
    RootLive (applyOp s op) := by
  cases op with
  | upsert d => exact rootLive_upsertNode s d h
  | remove id => exact rootLive_removeNode s id h
  | focus id? => exact rootLive_setFocus s id? h
  | clearAll => exact rootLive_clear s

theorem applyOps_preserved {P : Bridge → Prop}
    (step : ∀ s op, P s → P (applyOp s op)) :
    ∀ (ops : List StoreOp) (s : Bridge), P s → P (applyOps s ops) := by
  intro ops
  induction ops with
  | nil => exact fun s h => h
  | cons op rest ih =>
    intro s h
    exact ih (applyOp s op) (step s op h)

/-- C2 as amended: after any sequence of store operations starting from
the empty enabled store, `root_id` is either null or refers to a node
currently in the store. (It is not in general the only node with null
`parent_id`, nor need its `parent_id` be null — see the
counterexample.) -/
theorem C2_root_live_amended (ops : List StoreOp) :
    ∀ r, (applyOps Bridge.initBridge ops).root_id = some r →
      ∃ n, mapGet (applyOps Bridge.initBridge ops).nodes r = some n :=
  applyOps_preserved rootLive_applyOp ops Bridge.initBridge (by intro r hr; exact absurd hr (by simp [Bridge.initBridge]))

/-- C2 witness: concrete instance — in the two-root store of the
counterexample, `root_id = "b"` and "b" is indeed live. -/
theorem C2_witness :
    ∃ n, mapGet cexTwoRoots.nodes "b" = some n :=
  C2_root_live_amended
    [.upsert (sampleSnap "a" Option.none false Option.none),
     .upsert (sampleSnap "b" Option.none false Option.none),
     .upsert (sampleSnap "b" (some "a") false Option.none)] "b" (by rfl)
/-! ### Keys-nodup preservation and node-state helpers -/

theorem mem_mapKeys_of_get (m : List (String × AccessibilityNode)) (id : String)
    (n : AccessibilityNode) (h : mapGet m id = some n) : id ∈ mapKeys m := by
  by_contra hmem
  rw [(mapGet_eq_none_iff m id).2 hmem] at h
  exact absurd h (by simp)

theorem addChild_state (p : AccessibilityNode) (c : String) :
    (p.addChild c).state = p.state := rfl

theorem removeChild_state (p : AccessibilityNode) (c : String) :
    (p.removeChild c).state = p.state := by
  rw [AccessibilityNode.removeChild]
  split <;> rfl

theorem updateFromData_state (n : AccessibilityNode) (d : NodeData) :
    (n.updateFromData d).1.state = d.state_flags := rfl

theorem init_state (d : NodeData) :
    (AccessibilityNode.init d).state = d.state_flags := rfl

/-- The store's keys stay duplicate-free under every operation. -/
def KeysNodup (s : Bridge) : Prop := (mapKeys s.nodes).Nodup

theorem keysNodup_upsertNode (s : Bridge) (d : NodeData) (h : KeysNodup s) :
    KeysNodup (s.upsertNode d) := by
  cases he : s.enabled
  · rw [upsertNode_disabled s d he]
    exact h
  · cases hg : mapGet s.nodes d.id with
    | some n =>
      rw [upsertNode_existing s d n he hg]
      have hmem := mem_mapKeys_of_get s.nodes d.id n hg
      unfold KeysNodup at h ⊢
      split <;> simpa [mapKeys_mapPut_mem s.nodes d.id _ hmem] using h
    | none =>
      have hmem : d.id ∉ mapKeys s.nodes := (mapGet_eq_none_iff s.nodes d.id).1 hg
      have hput : (mapKeys (mapPut s.nodes d.id (AccessibilityNode.init d))).Nodup := by
        rw [mapKeys_mapPut_not_mem s.nodes d.id _ hmem]
        unfold KeysNodup at h
        simp [List.nodup_append, h, hmem]
      cases hp : d.parent_id with
      | none =>
        rw [upsertNode_new_root s d he hg hp]
        exact hput
      | some pid =>
        cases hq : mapGet (mapPut s.nodes d.id (AccessibilityNode.init d)) pid with
        | some q =>
          rw [upsertNode_new_parent_live s d pid q he hg hp hq]
          unfold KeysNodup
          simpa [mapKeys_mapModify] using hput
        | none =>
          rw [upsertNode_new_parent_dead s d pid he hg hp hq]
          exact hput

theorem keysNodup_removeNode (s : Bridge) (id : String) (h : KeysNodup s) :
    KeysNodup (s.removeNode id) := by
  cases he : s.enabled
  · rw [removeNode_disabled s id he]
    exact h
  · cases hg : mapGet s.nodes id with
    | none =>
      rw [removeNode_unknown s id hg]
      exact h
    | some node =>
      have hrem : (mapKeys (mapRemove s.nodes id)).Nodup :=
        (mapKeys_mapRemove_sublist s.nodes id).nodup h
      cases hpp : node.parent_id with
      | none =>
        unfold KeysNodup
        rw [removeNode_nodes_noparent s id node he hg hpp]
        exact hrem
      | some pid =>
        cases hq : mapGet (mapRemove s.nodes id) pid with
        | none =>
          unfold KeysNodup
          rw [removeNode_nodes_parent_dead s id pid node he hg hpp hq]
          exact hrem
        | some q =>
          unfold KeysNodup
          rw [removeNode_nodes_parent_live s id pid node q he hg hpp hq]
          simpa [mapKeys_mapModify] using hrem

theorem keysNodup_setFocus (s : Bridge) (id? : Option String) (h : KeysNodup s) :
    KeysNodup (s.setFocus id?) := by
  cases he : s.enabled
  · rw [setFocus_disabled s id? he]
    exact h
  · have h1 : KeysNodup s.clearFocusStep := by
      unfold KeysNodup
      rw [clearFocusStep_nodes_keys]
      exact h
    cases id? with
    | none =>
      unfold KeysNodup
      rw [setFocus_none_eq s he]
      exact h1
    | some id =>
      cases hq : mapGet s.clearFocusStep.nodes id with
      | none =>
        rw [setFocus_some_dead s id he hq]
        exact h1
      | some q =>
        unfold KeysNodup
        rw [setFocus_some_live s id q he hq]
        simpa [mapKeys_mapModify] using h1

theorem keysNodup_clear (s : Bridge) : KeysNodup s.clear := by
  unfold KeysNodup
  simp [Bridge.clear, mapKeys]
/-! ### C1 (amended): focus coherence -/

/-- The focus-coherence invariant: duplicate-free keys, `focused_id`
(when non-null) names a live node, and every node whose `focused` flag
is set is the one `focused_id` names. -/
def FocusInv (s : Bridge) : Prop :=
  KeysNodup s ∧
  (∀ f, s.focused_id = some f → ∃ n, mapGet s.nodes f = some n) ∧
  (∀ id n, mapGet s.nodes id = some n → n.state.focused = true →
    s.focused_id = some id)

theorem focusInv_upsertNode (s : Bridge) (d : NodeData)
    (hd : d.state_flags.focused = false) (h : FocusInv s) :
    FocusInv (s.upsertNode d) := by
  obtain ⟨hnd, hlive, htr⟩ := h
  refine ⟨keysNodup_upsertNode s d hnd, ?_⟩
  cases he : s.enabled
  · rw [upsertNode_disabled s d he]
    exact ⟨hlive, htr⟩
  · cases hg : mapGet s.nodes d.id with
    | some n =>
      have hN : (s.upsertNode d).nodes = mapPut s.nodes d.id (n.updateFromData d).1 := by
        rw [upsertNode_existing s d n he hg]
        split <;> rfl
      have hF : (s.upsertNode d).focused_id = s.focused_id := by
        rw [upsertNode_existing s d n he hg]
        split <;> rfl
      rw [hN, hF]
      constructor
      · intro f hf
        exact exists_get_mapPut s.nodes d.id _ f (hlive f hf)
      · intro id x hx hfoc
        by_cases hid : id = d.id
        · subst hid
          rw [mapGet_mapPut_self s.nodes d.id _, Option.some_inj] at hx
          rw [← hx, updateFromData_state, hd] at hfoc
          exact absurd hfoc (by simp)
        · rw [mapGet_mapPut_ne s.nodes d.id id _ hid] at hx
          exact htr id x hx hfoc
    | none =>
      cases hp : d.parent_id with
      | none =>
        have hN : (s.upsertNode d).nodes =
            mapPut s.nodes d.id (AccessibilityNode.init d) := by
          rw [upsertNode_new_root s d he hg hp]
        have hF : (s.upsertNode d).focused_id = s.focused_id := by
          rw [upsertNode_new_root s d he hg hp]
        rw [hN, hF]
        constructor
        · intro f hf
          exact exists_get_mapPut s.nodes d.id _ f (hlive f hf)
        · intro id x hx hfoc
          by_cases hid : id = d.id
          · subst hid
            rw [mapGet_mapPut_self s.nodes d.id _, Option.some_inj] at hx
            rw [← hx, init_state, hd] at hfoc
            exact absurd hfoc (by simp)
          · rw [mapGet_mapPut_ne s.nodes d.id id _ hid] at hx
            exact htr id x hx hfoc
      | some pid =>
        cases hq : mapGet (mapPut s.nodes d.id (AccessibilityNode.init d)) pid with
        | none =>
          have hN : (s.upsertNode d).nodes =
              mapPut s.nodes d.id (AccessibilityNode.init d) := by
            rw [upsertNode_new_parent_dead s d pid he hg hp hq]
          have hF : (s.upsertNode d).focused_id = s.focused_id := by
            rw [upsertNode_new_parent_dead s d pid he hg hp hq]
          rw [hN, hF]
          constructor
          · intro f hf
            exact exists_get_mapPut s.nodes d.id _ f (hlive f hf)
          · intro id x hx hfoc
            by_cases hid : id = d.id
            · subst hid
              rw [mapGet_mapPut_self s.nodes d.id _, Option.some_inj] at hx
              rw [← hx, init_state, hd] at hfoc
              exact absurd hfoc (by simp)
            · rw [mapGet_mapPut_ne s.nodes d.id id _ hid] at hx
              exact htr id x hx hfoc
        | some q =>
          have hN : (s.upsertNode d).nodes =
              mapModify (mapPut s.nodes d.id (AccessibilityNode.init d)) pid
                (fun p => p.addChild d.id) := by
            rw [upsertNode_new_parent_live s d pid q he hg hp hq]
          have hF : (s.upsertNode d).focused_id = s.focused_id := by
            rw [upsertNode_new_parent_live s d pid q he hg hp hq]
          rw [hN, hF]
          constructor
          · intro f hf
            exact exists_get_mapModify _ pid _ f
              (exists_get_mapPut s.nodes d.id _ f (hlive f hf))
          · intro id x hx hfoc
            by_cases hid : id = pid
            · subst hid
              rw [mapGet_mapModify_self, hq] at hx
              rw [show Option.map (fun p => p.addChild d.id) (some q) =
                some (q.addChild d.id) from rfl, Option.some_inj] at hx
              rw [← hx, addChild_state] at hfoc
              by_cases hpd : id = d.id
              · subst hpd
                rw [mapGet_mapPut_self s.nodes d.id _, Option.some_inj] at hq
                rw [← hq, init_state, hd] at hfoc
                exact absurd hfoc (by simp)
              · rw [mapGet_mapPut_ne s.nodes d.id id _ hpd] at hq
                exact htr id q hq hfoc
            · rw [mapGet_mapModify_ne _ pid id _ hid] at hx
              by_cases hpd : id = d.id
              · subst hpd
                rw [mapGet_mapPut_self s.nodes d.id _, Option.some_inj] at hx
                rw [← hx, init_state, hd] at hfoc
                exact absurd hfoc (by simp)
              · rw [mapGet_mapPut_ne s.nodes d.id id _ hpd] at hx
                exact htr id x hx hfoc
/-- Read-back across a successful removal: any node visible afterwards
was visible before (not under the removed id) with the same state. -/
theorem removeNode_get_rev (s : Bridge) (id : String) (node : AccessibilityNode)
    (he : s.enabled = true) (hg : mapGet s.nodes id = some node)
    (hnd : KeysNodup s) :
    ∀ r x, mapGet (s.removeNode id).nodes r = some x →
      r ≠ id ∧ ∃ y, mapGet s.nodes r = some y ∧ x.state = y.state := by
  have hrm : mapGet (mapRemove s.nodes id) id = Option.none :=
    mapGet_mapRemove_self s.nodes id hnd
  intro r x hx
  cases hpp : node.parent_id with
  | none =>
    rw [removeNode_nodes_noparent s id node he hg hpp] at hx
    have hrid : r ≠ id := by
      intro hh
      rw [hh, hrm] at hx
      exact absurd hx (by simp)
    rw [mapGet_mapRemove_ne s.nodes id r hrid] at hx
    exact ⟨hrid, x, hx, rfl⟩
  | some pid =>
    cases hq : mapGet (mapRemove s.nodes id) pid with
    | none =>
      rw [removeNode_nodes_parent_dead s id pid node he hg hpp hq] at hx
      have hrid : r ≠ id := by
        intro hh
        rw [hh, hrm] at hx
        exact absurd hx (by simp)
      rw [mapGet_mapRemove_ne s.nodes id r hrid] at hx
      exact ⟨hrid, x, hx, rfl⟩
    | some q =>
      have hpid : pid ≠ id := by
        intro hh
        rw [hh, hrm] at hq
        exact absurd hq (by simp)
      rw [removeNode_nodes_parent_live s id pid node q he hg hpp hq] at hx
      by_cases hr : r = pid
      · subst hr
        rw [mapGet_mapModify_self, hq] at hx
        rw [show Option.map (fun p => p.removeChild node.id) (some q) =
          some (q.removeChild node.id) from rfl, Option.some_inj] at hx
        rw [mapGet_mapRemove_ne s.nodes id r hpid] at hq
        refine ⟨hpid, q, hq, ?_⟩
        rw [← hx, removeChild_state]
      · rw [mapGet_mapModify_ne _ pid r _ hr] at hx
        have hrid : r ≠ id := by
          intro hh
          rw [hh, hrm] at hx
          exact absurd hx (by simp)
        rw [mapGet_mapRemove_ne s.nodes id r hrid] at hx
        exact ⟨hrid, x, hx, rfl⟩

/-- Read-forward across a successful removal: any node other than the
removed one stays visible with the same state. -/
theorem removeNode_get_fwd (s : Bridge) (id : String) (node : AccessibilityNode)
    (he : s.enabled = true) (hg : mapGet s.nodes id = some node)
    (_hnd : KeysNodup s) :
    ∀ r y, mapGet s.nodes r = some y → r ≠ id →
      ∃ x, mapGet (s.removeNode id).nodes r = some x ∧ x.state = y.state := by
  intro r y hy hrid
  have hy' : mapGet (mapRemove s.nodes id) r = some y := by
    rw [mapGet_mapRemove_ne s.nodes id r hrid]
    exact hy
  cases hpp : node.parent_id with
  | none =>
    rw [removeNode_nodes_noparent s id node he hg hpp]
    exact ⟨y, hy', rfl⟩
  | some pid =>
    cases hq : mapGet (mapRemove s.nodes id) pid with
    | none =>
      rw [removeNode_nodes_parent_dead s id pid node he hg hpp hq]
      exact ⟨y, hy', rfl⟩
    | some q =>
      rw [removeNode_nodes_parent_live s id pid node q he hg hpp hq]
      by_cases hr : r = pid
      · subst hr
        rw [hy'] at hq
        rw [Option.some_inj] at hq
        subst hq
        refine ⟨y.removeChild node.id, ?_, removeChild_state y node.id⟩
        rw [mapGet_mapModify_self, hy']
        rfl
      · rw [mapGet_mapModify_ne _ pid r _ hr]
        exact ⟨y, hy', rfl⟩

theorem focusInv_removeNode (s : Bridge) (id : String) (h : FocusInv s) :
    FocusInv (s.removeNode id) := by
  obtain ⟨hnd, hlive, htr⟩ := h
  refine ⟨keysNodup_removeNode s id hnd, ?_⟩
  cases he : s.enabled
  · rw [removeNode_disabled s id he]
    exact ⟨hlive, htr⟩
  · cases hg : mapGet s.nodes id with
    | none =>
      rw [removeNode_unknown s id hg]
      exact ⟨hlive, htr⟩
    | some node =>
      have hF := removeNode_focused_id s id node he hg
      constructor
      · intro f hf
        rw [hF] at hf
        by_cases hfid : s.focused_id = some id
        · rw [if_pos hfid] at hf
          exact absurd hf (by simp)
        · rw [if_neg hfid] at hf
          have hfne : f ≠ id := by
            intro hh
            rw [hh] at hf
            exact hfid hf
          obtain ⟨y, hy⟩ := hlive f hf
          obtain ⟨x, hx, _⟩ := removeNode_get_fwd s id node he hg hnd f y hy hfne
          exact ⟨x, hx⟩
      · intro r x hx hfoc
        obtain ⟨hrid, y, hy, hst⟩ := removeNode_get_rev s id node he hg hnd r x hx
        rw [hst] at hfoc
        have hfr := htr r y hy hfoc
        rw [hF, if_neg ?_]
        · exact hfr
        · rw [hfr]
          simp [hrid]

theorem unfocusNode_state (n : AccessibilityNode) :
    (Bridge.unfocusNode n).state.focused = false := rfl

theorem focusNode_state (n : AccessibilityNode) :
    (Bridge.focusNode n).state.focused = true := rfl

/-- After the clearing half of `setFocus`, no live node has its
`focused` flag set (given that every focused node was the tracked one
beforehand). -/
theorem clearFocusStep_no_focused (s : Bridge)
    (htr : ∀ id n, mapGet s.nodes id = some n → n.state.focused = true →
      s.focused_id = some id) :
    ∀ id n, mapGet s.clearFocusStep.nodes id = some n →
      n.state.focused = false := by
  intro id n hn
  cases hf : s.focused_id with
  | none =>
    have hcs : s.clearFocusStep = s := by
      rw [Bridge.clearFocusStep, hf]
    rw [hcs] at hn
    cases hfoc : n.state.focused
    · rfl
    · rw [htr id n hn hfoc] at hf
      exact absurd hf (by simp)
  | some old =>
    have hcs : s.clearFocusStep.nodes = mapModify s.nodes old Bridge.unfocusNode := by
      rw [Bridge.clearFocusStep, hf]
    rw [hcs] at hn
    by_cases hid : id = old
    · subst hid
      rw [mapGet_mapModify_self] at hn
      cases hgo : mapGet s.nodes id with
      | none =>
        rw [hgo] at hn
        exact absurd hn (by simp)
      | some m =>
        rw [hgo] at hn
        rw [show Option.map Bridge.unfocusNode (some m) =
          some (Bridge.unfocusNode m) from rfl, Option.some_inj] at hn
        rw [← hn]
        rfl
    · rw [mapGet_mapModify_ne _ old id _ hid] at hn
      cases hfoc : n.state.focused
      · rfl
      · rw [htr id n hn hfoc, Option.some_inj] at hf
        exact absurd hf hid

theorem clearFocusStep_focused_none (s : Bridge) :
    s.clearFocusStep.focused_id = Option.none := by
  rw [Bridge.clearFocusStep]
  cases hf : s.focused_id with
  | none => exact hf
  | some old => rfl

theorem focusInv_setFocus (s : Bridge) (id? : Option String) (h : FocusInv s) :
    FocusInv (s.setFocus id?) := by
  obtain ⟨hnd, hlive, htr⟩ := h
  have hclears := clearFocusStep_no_focused s htr
  refine ⟨keysNodup_setFocus s id? hnd, ?_⟩
  cases he : s.enabled
  · rw [setFocus_disabled s id? he]
    exact ⟨hlive, htr⟩
  · cases id? with
    | none =>
      have hN : (s.setFocus Option.none).nodes = s.clearFocusStep.nodes := by
        rw [setFocus_none_eq s he]
      have hF : (s.setFocus Option.none).focused_id = Option.none := by
        rw [setFocus_none_eq s he]
        exact clearFocusStep_focused_none s
      rw [hN, hF]
      constructor
      · intro f hf
        exact absurd hf (by simp)
      · intro id x hx hfoc
        rw [hclears id x hx] at hfoc
        exact absurd hfoc (by simp)
    | some id =>
      cases hq : mapGet s.clearFocusStep.nodes id with
      | none =>
        have hN : (s.setFocus (some id)).nodes = s.clearFocusStep.nodes := by
          rw [setFocus_some_dead s id he hq]
        have hF : (s.setFocus (some id)).focused_id = Option.none := by
          rw [setFocus_some_dead s id he hq]
          exact clearFocusStep_focused_none s
        rw [hN, hF]
        constructor
        · intro f hf
          exact absurd hf (by simp)
        · intro r x hx hfoc
          rw [hclears r x hx] at hfoc
          exact absurd hfoc (by simp)
      | some q =>
        have hN : (s.setFocus (some id)).nodes =
            mapModify s.clearFocusStep.nodes id Bridge.focusNode := by
          rw [setFocus_some_live s id q he hq]
        have hF : (s.setFocus (some id)).focused_id = some id := by
          rw [setFocus_some_live s id q he hq]
        rw [hN, hF]
        constructor
        · intro f hf
          rw [Option.some_inj] at hf
          subst hf
          refine ⟨Bridge.focusNode q, ?_⟩
          rw [mapGet_mapModify_self, hq]
          rfl
        · intro r x hx hfoc
          by_cases hr : r = id
          · rw [hr]
          · rw [mapGet_mapModify_ne _ id r _ hr] at hx
            rw [hclears r x hx] at hfoc
            exact absurd hfoc (by simp)

theorem focusInv_clear (s : Bridge) : FocusInv s.clear := by
  refine ⟨keysNodup_clear s, ?_, ?_⟩
  · intro f hf
    exact absurd hf (by simp [Bridge.clear])
  · intro id n hn
    rw [show s.clear.nodes = [] from rfl] at hn
    exact absurd hn (by simp [mapGet])

/-- Upserts whose snapshot does not claim focus; every other operation
is unrestricted. -/
def FocusOK : StoreOp → Prop
  | .upsert d => d.state_flags.focused = false
  | _ => True

theorem focusInv_applyOp (s : Bridge) (op : StoreOp) (hok : FocusOK op)
    (h : FocusInv s) : FocusInv (applyOp s op) := by
  cases op with
  | upsert d => exact focusInv_upsertNode s d hok h
  | remove id => exact focusInv_removeNode s id h
  | focus id? => exact focusInv_setFocus s id? h
  | clearAll => exact focusInv_clear s

theorem applyOps_preserved_cond {P : Bridge → Prop} {OK : StoreOp → Prop}
    (step : ∀ s op, OK op → P s → P (applyOp s op)) :
    ∀ (ops : List StoreOp) (s : Bridge), (∀ op ∈ ops, OK op) → P s →
      P (applyOps s ops) := by
  intro ops
  induction ops with
  | nil => exact fun s _ h => h
  | cons op rest ih =>
    intro s hok h
    exact ih (applyOp s op)
      (fun o ho => hok o (List.mem_cons_of_mem _ ho))
      (step s op (hok op (List.mem_cons_self _ _)) h)

theorem focusInv_initBridge : FocusInv Bridge.initBridge := by
  refine ⟨by simp [KeysNodup, Bridge.initBridge, mapKeys], ?_, ?_⟩
  · intro f hf
    exact absurd hf (by simp [Bridge.initBridge])
  · intro id n hn
    exact absurd hn (by simp [Bridge.initBridge, mapGet])

/-- C1 as amended: after any sequence of upsert/remove/setFocus/clear
operations starting from the empty enabled store, in which every
upserted snapshot carries `state.focused = false`: at most one node has
`state.focused = true`; `focused_id`, when non-null, names a node
currently in the store; and every node with `state.focused = true` is
the node `focused_id` names. (The "non-null exactly when such a node
exists" biconditional of the original claim fails on the code and is
dropped — see the counterexample.) -/
theorem C1_focus_invariant_amended (ops : List StoreOp)
    (hops : ∀ d, StoreOp.upsert d ∈ ops → d.state_flags.focused = false) :
    (∀ id₁ id₂ n₁ n₂,
      mapGet (applyOps Bridge.initBridge ops).nodes id₁ = some n₁ →
      mapGet (applyOps Bridge.initBridge ops).nodes id₂ = some n₂ →
      n₁.state.focused = true → n₂.state.focused = true → id₁ = id₂) ∧
    (∀ f, (applyOps Bridge.initBridge ops).focused_id = some f →
      ∃ n, mapGet (applyOps Bridge.initBridge ops).nodes f = some n) ∧
    (∀ id n, mapGet (applyOps Bridge.initBridge ops).nodes id = some n →
      n.state.focused = true →
      (applyOps Bridge.initBridge ops).focused_id = some id) := by
  have hok : ∀ op ∈ ops, FocusOK op := by
    intro op hop
    cases op with
    | upsert d => exact hops d hop
    | remove id => exact trivial
    | focus id? => exact trivial
    | clearAll => exact trivial
  obtain ⟨_, hlive, htr⟩ :=
    applyOps_preserved_cond focusInv_applyOp ops Bridge.initBridge hok
      focusInv_initBridge
  refine ⟨?_, hlive, htr⟩
  intro id₁ id₂ n₁ n₂ h1 h2 f1 f2
  have e1 := htr id₁ n₁ h1 f1
  have e2 := htr id₂ n₂ h2 f2
  rw [e1, Option.some_inj] at e2
  exact e2

/-- C1 witness: concrete instance — upsert "a" and "b" (snapshots with
focused = false) and focus "a": the invariant instantiates to "a" being
the unique focused node, named by `focused_id`. -/
theorem C1_witness :
    (∀ id₁ id₂ n₁ n₂,
      mapGet (applyOps Bridge.initBridge
        [.upsert (sampleSnap "a" Option.none false Option.none),
         .upsert (sampleSnap "b" Option.none false Option.none),
         .focus (some "a")]).nodes id₁ = some n₁ →
      mapGet (applyOps Bridge.initBridge
        [.upsert (sampleSnap "a" Option.none false Option.none),
         .upsert (sampleSnap "b" Option.none false Option.none),
         .focus (some "a")]).nodes id₂ = some n₂ →
      n₁.state.focused = true → n₂.state.focused = true → id₁ = id₂) ∧
    (∃ n, mapGet (applyOps Bridge.initBridge
      [.upsert (sampleSnap "a" Option.none false Option.none),
       .upsert (sampleSnap "b" Option.none false Option.none),
       .focus (some "a")]).nodes "a" = some n) := by
  have h := C1_focus_invariant_amended
    [.upsert (sampleSnap "a" Option.none false Option.none),
     .upsert (sampleSnap "b" Option.none false Option.none),
     .focus (some "a")]
    (by
      intro d hd
      simp only [List.mem_cons, List.not_mem_nil, or_false] at hd
      rcases hd with h | h | h
      · injection h with h'
        rw [h']
        rfl
      · injection h with h'
        rw [h']
        rfl
      · simp at h)
  exact ⟨h.1, h.2.1 "a" (by rfl)⟩
/-! ### C5 (amended): focus transition -/

theorem clearFocusStep_eq_of_none (s : Bridge) (hf : s.focused_id = Option.none) :
    s.clearFocusStep = s := by
  rw [Bridge.clearFocusStep, hf]

theorem clearFocusStep_eq_of_some (s : Bridge) (old : String)
    (hf : s.focused_id = some old) :
    s.clearFocusStep =
      { s with nodes := mapModify s.nodes old Bridge.unfocusNode
               focused_id := Option.none } := by
  rw [Bridge.clearFocusStep, hf]

theorem clearFocusStep_get_exists (s : Bridge) (r : String) (x : AccessibilityNode)
    (hx : mapGet s.nodes r = some x) :
    ∃ y, mapGet s.clearFocusStep.nodes r = some y := by
  cases hf : s.focused_id with
  | none =>
    rw [clearFocusStep_eq_of_none s hf]
    exact ⟨x, hx⟩
  | some old =>
    rw [clearFocusStep_eq_of_some s old hf]
    exact exists_get_mapModify s.nodes old _ r ⟨x, hx⟩

theorem setFocus_enabled (s : Bridge) (id? : Option String) :
    (s.setFocus id?).enabled = s.enabled := by
  cases he : s.enabled
  · rw [setFocus_disabled s id? he, he]
  · cases id? with
    | none =>
      rw [setFocus_none_eq s he]
      exact (clearFocusStep_enabled s).trans he
    | some id =>
      cases hq : mapGet s.clearFocusStep.nodes id with
      | none =>
        rw [setFocus_some_dead s id he hq]
        exact (clearFocusStep_enabled s).trans he
      | some q =>
        rw [setFocus_some_live s id q he hq]
        exact (clearFocusStep_enabled s).trans he

/-- C5 as amended: for distinct nodes `a` and `b` present in the
enabled store, provided every focused node of the initial store is the
one `focused_id` names (which holds for every store reachable without
focus-claiming snapshots): `setFocus a` then `setFocus b` leaves `a`'s
focused flag false and `b`'s true with `focused_id = b`; a following
`setFocus none` leaves `focused_id` null and every node's focused flag
false. (Without the proviso the "every node" clause fails — see the
counterexample.) -/
theorem C5_focus_transition_amended (s : Bridge) (a b : String)
    (na nb : AccessibilityNode) (he : s.enabled = true) (hab : a ≠ b)
    (ha : mapGet s.nodes a = some na) (hb : mapGet s.nodes b = some nb)
    (htr : ∀ id n, mapGet s.nodes id = some n → n.state.focused = true →
      s.focused_id = some id) :
    ((mapGet ((s.setFocus (some a)).setFocus (some b)).nodes a).map
      (fun n => n.state.focused) = some false) ∧
    ((mapGet ((s.setFocus (some a)).setFocus (some b)).nodes b).map
      (fun n => n.state.focused) = some true) ∧
    ((s.setFocus (some a)).setFocus (some b)).focused_id = some b ∧
    (((s.setFocus (some a)).setFocus (some b)).setFocus Option.none).focused_id =
      Option.none ∧
    (∀ id n,
      mapGet (((s.setFocus (some a)).setFocus (some b)).setFocus Option.none).nodes
        id = some n → n.state.focused = false) := by
  have hno1 := clearFocusStep_no_focused s htr
  obtain ⟨na1, hna1⟩ := clearFocusStep_get_exists s a na ha
  obtain ⟨nb1, hnb1⟩ := clearFocusStep_get_exists s b nb hb
  have hA := setFocus_some_live s a na1 he hna1
  have hA_nodes : (s.setFocus (some a)).nodes =
      mapModify s.clearFocusStep.nodes a Bridge.focusNode := by rw [hA]
  have hA_foc : (s.setFocus (some a)).focused_id = some a := by rw [hA]
  have hA_en : (s.setFocus (some a)).enabled = true := by
    rw [setFocus_enabled, he]
  have hAc := clearFocusStep_eq_of_some (s.setFocus (some a)) a hA_foc
  have hAc_nodes : (s.setFocus (some a)).clearFocusStep.nodes =
      mapModify (s.setFocus (some a)).nodes a Bridge.unfocusNode := by rw [hAc]
  have hb1 : mapGet (s.setFocus (some a)).clearFocusStep.nodes b = some nb1 := by
    rw [hAc_nodes, mapGet_mapModify_ne _ a b _ (Ne.symm hab), hA_nodes,
      mapGet_mapModify_ne _ a b _ (Ne.symm hab)]
    exact hnb1
  have hB := setFocus_some_live (s.setFocus (some a)) b nb1 hA_en hb1
  have hB_nodes : ((s.setFocus (some a)).setFocus (some b)).nodes =
      mapModify (s.setFocus (some a)).clearFocusStep.nodes b Bridge.focusNode := by
    rw [hB]
  have hB_foc : ((s.setFocus (some a)).setFocus (some b)).focused_id = some b := by
    rw [hB]
  have hB_en : ((s.setFocus (some a)).setFocus (some b)).enabled = true := by
    rw [setFocus_enabled, hA_en]
  have q1 : mapGet ((s.setFocus (some a)).setFocus (some b)).nodes a =
      some (Bridge.unfocusNode (Bridge.focusNode na1)) := by
    rw [hB_nodes, mapGet_mapModify_ne _ b a _ hab, hAc_nodes,
      mapGet_mapModify_self, hA_nodes, mapGet_mapModify_self, hna1]
    rfl
  have q2 : mapGet ((s.setFocus (some a)).setFocus (some b)).nodes b =
      some (Bridge.focusNode nb1) := by
    rw [hB_nodes, mapGet_mapModify_self, hb1]
    rfl
  have h3 := setFocus_none_eq ((s.setFocus (some a)).setFocus (some b)) hB_en
  have hBc := clearFocusStep_eq_of_some ((s.setFocus (some a)).setFocus (some b))
    b hB_foc
  have h3_foc :
      ((((s.setFocus (some a)).setFocus (some b))).setFocus Option.none).focused_id =
        Option.none := by
    rw [h3]
    exact clearFocusStep_focused_none _
  have h3_nodes :
      ((((s.setFocus (some a)).setFocus (some b))).setFocus Option.none).nodes =
        mapModify ((s.setFocus (some a)).setFocus (some b)).nodes b
          Bridge.unfocusNode := by
    rw [h3, hBc]
  refine ⟨by rw [q1]; rfl, by rw [q2]; rfl, hB_foc, h3_foc, ?_⟩
  intro id n hn
  rw [h3_nodes] at hn
  by_cases hib : id = b
  · subst hib
    rw [mapGet_mapModify_self, q2] at hn
    rw [show Option.map Bridge.unfocusNode (some (Bridge.focusNode nb1)) =
      some (Bridge.unfocusNode (Bridge.focusNode nb1)) from rfl,
      Option.some_inj] at hn
    rw [← hn]
    rfl
  · rw [mapGet_mapModify_ne _ b id _ hib, hB_nodes,
      mapGet_mapModify_ne _ b id _ hib, hAc_nodes] at hn
    by_cases hia : id = a
    · subst hia
      rw [mapGet_mapModify_self, hA_nodes, mapGet_mapModify_self, hna1] at hn
      rw [show Option.map Bridge.unfocusNode (Option.map Bridge.focusNode (some na1)) =
        some (Bridge.unfocusNode (Bridge.focusNode na1)) from rfl,
        Option.some_inj] at hn
      rw [← hn]
      rfl
    · rw [mapGet_mapModify_ne _ a id _ hia, hA_nodes,
        mapGet_mapModify_ne _ a id _ hia] at hn
      exact hno1 id n hn

theorem mapGet_mem (m : List (String × AccessibilityNode)) (id : String)
    (n : AccessibilityNode) (h : mapGet m id = some n) : (id, n) ∈ m := by
  induction m with
  | nil => simp [mapGet] at h
  | cons kv rest ih =>
    obtain ⟨k, v⟩ := kv
    by_cases hk : k = id
    · subst hk
      rw [mapGet, if_pos rfl, Option.some_inj] at h
      subst h
      exact List.mem_cons_self _ _
    · rw [mapGet, if_neg hk] at h
      exact List.mem_cons_of_mem _ (ih h)

/-- Test vector for C5: the two-node store "a", "b" (no focus flags in
the snapshots). -/
def c5Store : Bridge :=
  applyOps Bridge.initBridge
    [.upsert (sampleSnap "a" Option.none false Option.none),
     .upsert (sampleSnap "b" Option.none false Option.none)]

/-- C5 witness: concrete instance on `c5Store`. -/
theorem C5_witness :
    ((mapGet ((c5Store.setFocus (some "a")).setFocus (some "b")).nodes "a").map
      (fun n => n.state.focused) = some false) ∧
    ((mapGet ((c5Store.setFocus (some "a")).setFocus (some "b")).nodes "b").map
      (fun n => n.state.focused) = some true) ∧
    ((c5Store.setFocus (some "a")).setFocus (some "b")).focused_id = some "b" ∧
    (((c5Store.setFocus (some "a")).setFocus (some "b")).setFocus
      Option.none).focused_id = Option.none := by
  have htr0 : ∀ id n, mapGet c5Store.nodes id = some n →
      n.state.focused = true → c5Store.focused_id = some id := by
    intro id n hget hfoc
    have hmem := mapGet_mem _ _ _ hget
    have hlist : c5Store.nodes =
        [("a", AccessibilityNode.init (sampleSnap "a" Option.none false Option.none)),
         ("b", AccessibilityNode.init (sampleSnap "b" Option.none false Option.none))] :=
      rfl
    rw [hlist] at hmem
    simp only [List.mem_cons, List.not_mem_nil, or_false, Prod.mk.injEq] at hmem
    rcases hmem with ⟨_, hn⟩ | ⟨_, hn⟩
    · rw [hn] at hfoc
      exact absurd hfoc (by decide)
    · rw [hn] at hfoc
      exact absurd hfoc (by decide)
  have h := C5_focus_transition_amended c5Store "a" "b"
    (AccessibilityNode.init (sampleSnap "a" Option.none false Option.none))
    (AccessibilityNode.init (sampleSnap "b" Option.none false Option.none))
    rfl (by decide) rfl rfl htr0
  exact ⟨h.1, h.2.1, h.2.2.1, h.2.2.2.1⟩
/-! ### C3 (amended): parent/child consistency for well-ordered sequences -/

theorem addChild_children (p : AccessibilityNode) (c : String) :
    (p.addChild c).children_ids = p.children_ids ++ [c] := rfl

theorem addChild_parent_id (p : AccessibilityNode) (c : String) :
    (p.addChild c).parent_id = p.parent_id := rfl

theorem addChild_id (p : AccessibilityNode) (c : String) :
    (p.addChild c).id = p.id := rfl

theorem removeChild_children (p : AccessibilityNode) (c : String) :
    (p.removeChild c).children_ids = p.children_ids.erase c := by
  rw [AccessibilityNode.removeChild]
  split
  · rfl
  · rw [List.erase_of_not_mem (by assumption)]

theorem removeChild_id (p : AccessibilityNode) (c : String) :
    (p.removeChild c).id = p.id := by
  rw [AccessibilityNode.removeChild]
  split <;> rfl

theorem removeChild_parent_id_eq (p : AccessibilityNode) (c : String) :
    (p.removeChild c).parent_id = p.parent_id :=
  removeChild_parent_id p c

theorem updateFromData_children (n : AccessibilityNode) (d : NodeData) :
    (n.updateFromData d).1.children_ids = n.children_ids := rfl

theorem updateFromData_parent_id (n : AccessibilityNode) (d : NodeData) :
    (n.updateFromData d).1.parent_id = d.parent_id := rfl

theorem updateFromData_id (n : AccessibilityNode) (d : NodeData) :
    (n.updateFromData d).1.id = n.id := rfl

theorem init_children (d : NodeData) :
    (AccessibilityNode.init d).children_ids = [] := rfl

theorem init_parent_id (d : NodeData) :
    (AccessibilityNode.init d).parent_id = d.parent_id := rfl

theorem init_id (d : NodeData) : (AccessibilityNode.init d).id = d.id := rfl

/-- Every stored node's `id` field equals its key. -/
def KeysMatch (s : Bridge) : Prop :=
  ∀ id n, mapGet s.nodes id = some n → n.id = id

/-- Every live node's parent reference is null or names a live node. -/
def ParentsLive (s : Bridge) : Prop :=
  ∀ id n, mapGet s.nodes id = some n → ∀ p, n.parent_id = some p →
    ∃ m, mapGet s.nodes p = some m

/-- Every live node's children list is duplicate-free and holds exactly
the keys of the live nodes whose `parent_id` names it. -/
def ChildrenExact (s : Bridge) : Prop :=
  ∀ pid P, mapGet s.nodes pid = some P →
    P.children_ids.Nodup ∧
    (∀ c, c ∈ P.children_ids ↔
      ∃ C, mapGet s.nodes c = some C ∧ C.parent_id = some pid)

/-- The combined tree invariant for the children-consistency claim. -/
def TreeInv (s : Bridge) : Prop :=
  s.enabled = true ∧ KeysNodup s ∧ KeysMatch s ∧ ParentsLive s ∧ ChildrenExact s

theorem upsertNode_enabled_existing (s : Bridge) (d : NodeData)
    (n : AccessibilityNode) (he : s.enabled = true)
    (hg : mapGet s.nodes d.id = some n) : (s.upsertNode d).enabled = true := by
  rw [upsertNode_existing s d n he hg]
  split
  · exact he
  · exact he

theorem upsertNode_nodes_existing (s : Bridge) (d : NodeData)
    (n : AccessibilityNode) (he : s.enabled = true)
    (hg : mapGet s.nodes d.id = some n) :
    (s.upsertNode d).nodes = mapPut s.nodes d.id (n.updateFromData d).1 := by
  rw [upsertNode_existing s d n he hg]
  split
  · rfl
  · rfl

/-- Re-upserting a known node whose snapshot keeps its `parent_id`
preserves the tree invariant. -/
theorem treeInv_upsert_old (s : Bridge) (d : NodeData) (n : AccessibilityNode)
    (hold : mapGet s.nodes d.id = some n) (hpar : d.parent_id = n.parent_id)
    (h : TreeInv s) : TreeInv (s.upsertNode d) := by
  obtain ⟨hen, hnd, hkm, hpl, hce⟩ := h
  have hget : ∀ x, mapGet (s.upsertNode d).nodes x =
      if x = d.id then some (n.updateFromData d).1 else mapGet s.nodes x := by
    intro x
    rw [upsertNode_nodes_existing s d n hen hold]
    by_cases hx : x = d.id
    · subst hx
      rw [if_pos rfl, mapGet_mapPut_self]
    · rw [if_neg hx, mapGet_mapPut_ne s.nodes d.id x _ hx]
  refine ⟨upsertNode_enabled_existing s d n hen hold,
    keysNodup_upsertNode s d hnd, ?_, ?_, ?_⟩
  · intro x m hm
    rw [hget x] at hm
    by_cases hx : x = d.id
    · rw [if_pos hx, Option.some_inj] at hm
      rw [← hm, updateFromData_id, hkm d.id n hold, hx]
    · rw [if_neg hx] at hm
      exact hkm x m hm
  · intro x m hm p hp
    have hex : ∃ mm, mapGet s.nodes p = some mm := by
      rw [hget x] at hm
      by_cases hx : x = d.id
      · rw [if_pos hx, Option.some_inj] at hm
        rw [← hm, updateFromData_parent_id, hpar] at hp
        exact hpl d.id n hold p hp
      · rw [if_neg hx] at hm
        exact hpl x m hm p hp
    obtain ⟨mm, hmm⟩ := hex
    rw [hget p]
    by_cases hpx : p = d.id
    · exact ⟨(n.updateFromData d).1, by rw [if_pos hpx]⟩
    · exact ⟨mm, by rw [if_neg hpx]; exact hmm⟩
  · intro pid P hP
    have hsame : ∀ c, (∃ C, mapGet (s.upsertNode d).nodes c = some C ∧
        C.parent_id = some pid) ↔
        (∃ C, mapGet s.nodes c = some C ∧ C.parent_id = some pid) := by
      intro c
      constructor
      · rintro ⟨C, hC, hCp⟩
        rw [hget c] at hC
        by_cases hc : c = d.id
        · rw [if_pos hc, Option.some_inj] at hC
          rw [← hC, updateFromData_parent_id, hpar] at hCp
          exact ⟨n, by rw [hc]; exact hold, hCp⟩
        · rw [if_neg hc] at hC
          exact ⟨C, hC, hCp⟩
      · rintro ⟨C, hC, hCp⟩
        by_cases hc : c = d.id
        · refine ⟨(n.updateFromData d).1, by rw [hget c, if_pos hc], ?_⟩
          rw [updateFromData_parent_id, hpar]
          rw [hc] at hC
          rw [hold, Option.some_inj] at hC
          rw [hC]
          exact hCp
        · exact ⟨C, by rw [hget c, if_neg hc]; exact hC, hCp⟩
    rw [hget pid] at hP
    by_cases hpid : pid = d.id
    · rw [if_pos hpid, Option.some_inj] at hP
      subst hpid
      obtain ⟨hnodup, hiff⟩ := hce d.id n hold
      rw [← hP, updateFromData_children]
      exact ⟨hnodup, fun c => (hiff c).trans (hsame c).symm⟩
    · rw [if_neg hpid] at hP
      obtain ⟨hnodup, hiff⟩ := hce pid P hP
      exact ⟨hnodup, fun c => (hiff c).trans (hsame c).symm⟩
/-- Upserting an unseen rootless node preserves the tree invariant. -/
theorem treeInv_upsert_new_root (s : Bridge) (d : NodeData)
    (hnew : mapGet s.nodes d.id = Option.none)
    (hp : d.parent_id = Option.none) (h : TreeInv s) :
    TreeInv (s.upsertNode d) := by
  obtain ⟨hen, hnd, hkm, hpl, hce⟩ := h
  have heq := upsertNode_new_root s d hen hnew hp
  have hget : ∀ x, mapGet (s.upsertNode d).nodes x =
      if x = d.id then some (AccessibilityNode.init d) else mapGet s.nodes x := by
    intro x
    rw [show (s.upsertNode d).nodes =
      mapPut s.nodes d.id (AccessibilityNode.init d) from by rw [heq]]
    by_cases hx : x = d.id
    · subst hx
      rw [if_pos rfl, mapGet_mapPut_self]
    · rw [if_neg hx, mapGet_mapPut_ne s.nodes d.id x _ hx]
  refine ⟨by rw [heq]; exact hen, keysNodup_upsertNode s d hnd, ?_, ?_, ?_⟩
  · intro x m hm
    rw [hget x] at hm
    by_cases hx : x = d.id
    · rw [if_pos hx, Option.some_inj] at hm
      rw [← hm, init_id, hx]
    · rw [if_neg hx] at hm
      exact hkm x m hm
  · intro x m hm p hpm
    rw [hget x] at hm
    by_cases hx : x = d.id
    · rw [if_pos hx, Option.some_inj] at hm
      rw [← hm, init_parent_id, hp] at hpm
      exact absurd hpm (by simp)
    · rw [if_neg hx] at hm
      obtain ⟨mm, hmm⟩ := hpl x m hm p hpm
      rw [hget p]
      by_cases hpx : p = d.id
      · exact ⟨AccessibilityNode.init d, by rw [if_pos hpx]⟩
      · exact ⟨mm, by rw [if_neg hpx]; exact hmm⟩
  · intro pid P hP
    rw [hget pid] at hP
    by_cases hpid : pid = d.id
    · rw [if_pos hpid, Option.some_inj] at hP
      rw [← hP, init_children]
      refine ⟨List.nodup_nil, ?_⟩
      intro c
      simp only [List.not_mem_nil, false_iff]
      rintro ⟨C, hC, hCp⟩
      rw [hget c] at hC
      by_cases hc : c = d.id
      · rw [if_pos hc, Option.some_inj] at hC
        rw [← hC, init_parent_id, hp] at hCp
        exact absurd hCp (by simp)
      · rw [if_neg hc] at hC
        obtain ⟨mm, hmm⟩ := hpl c C hC pid hCp
        rw [hpid, hnew] at hmm
        exact absurd hmm (by simp)
    · rw [if_neg hpid] at hP
      obtain ⟨hnodup, hiff⟩ := hce pid P hP
      refine ⟨hnodup, ?_⟩
      intro c
      rw [hiff c]
      constructor
      · rintro ⟨C, hC, hCp⟩
        refine ⟨C, ?_, hCp⟩
        rw [hget c]
        have hc : c ≠ d.id := by
          intro hh
          rw [hh, hnew] at hC
          exact absurd hC (by simp)
        rw [if_neg hc]
        exact hC
      · rintro ⟨C, hC, hCp⟩
        rw [hget c] at hC
        by_cases hc : c = d.id
        · rw [if_pos hc, Option.some_inj] at hC
          rw [← hC, init_parent_id, hp] at hCp
          exact absurd hCp (by simp)
        · rw [if_neg hc] at hC
          exact ⟨C, hC, hCp⟩
/-- Upserting an unseen node under a live parent preserves the tree
invariant. -/
theorem treeInv_upsert_new_parent (s : Bridge) (d : NodeData) (p : String)
    (m : AccessibilityNode) (hnew : mapGet s.nodes d.id = Option.none)
    (hp : d.parent_id = some p) (hm : mapGet s.nodes p = some m)
    (h : TreeInv s) : TreeInv (s.upsertNode d) := by
  obtain ⟨hen, hnd, hkm, hpl, hce⟩ := h
  have hpne : p ≠ d.id := by
    intro hh
    rw [hh, hnew] at hm
    exact absurd hm (by simp)
  have hq : mapGet (mapPut s.nodes d.id (AccessibilityNode.init d)) p = some m := by
    rw [mapGet_mapPut_ne s.nodes d.id p _ hpne]
    exact hm
  have heq := upsertNode_new_parent_live s d p m hen hnew hp hq
  have hget : ∀ x, mapGet (s.upsertNode d).nodes x =
      if x = p then some (m.addChild d.id)
      else if x = d.id then some (AccessibilityNode.init d)
      else mapGet s.nodes x := by
    intro x
    rw [show (s.upsertNode d).nodes =
      mapModify (mapPut s.nodes d.id (AccessibilityNode.init d)) p
        (fun q => q.addChild d.id) from by rw [heq]]
    by_cases hxp : x = p
    · subst hxp
      rw [if_pos rfl, mapGet_mapModify_self, hq]
      rfl
    · rw [if_neg hxp, mapGet_mapModify_ne _ p x _ hxp]
      by_cases hxd : x = d.id
      · subst hxd
        rw [if_pos rfl, mapGet_mapPut_self]
      · rw [if_neg hxd, mapGet_mapPut_ne s.nodes d.id x _ hxd]
  have hget_exists : ∀ q C, mapGet s.nodes q = some C →
      ∃ C2, mapGet (s.upsertNode d).nodes q = some C2 := by
    intro q C hC
    rw [hget q]
    by_cases hqp : q = p
    · exact ⟨m.addChild d.id, by rw [if_pos hqp]⟩
    · by_cases hqd : q = d.id
      · exact ⟨AccessibilityNode.init d, by rw [if_neg hqp, if_pos hqd]⟩
      · exact ⟨C, by rw [if_neg hqp, if_neg hqd]; exact hC⟩
  have hdnim : d.id ∉ m.children_ids := by
    intro hmem
    obtain ⟨C, hC, _⟩ := ((hce p m hm).2 d.id).1 hmem
    rw [hnew] at hC
    exact absurd hC (by simp)
  refine ⟨by rw [heq]; exact hen, keysNodup_upsertNode s d hnd, ?_, ?_, ?_⟩
  · intro x n hn
    rw [hget x] at hn
    by_cases hxp : x = p
    · rw [if_pos hxp, Option.some_inj] at hn
      rw [← hn, addChild_id, hkm p m hm, hxp]
    · rw [if_neg hxp] at hn
      by_cases hxd : x = d.id
      · rw [if_pos hxd, Option.some_inj] at hn
        rw [← hn, init_id, hxd]
      · rw [if_neg hxd] at hn
        exact hkm x n hn
  · intro x n hn q hq'
    rw [hget x] at hn
    by_cases hxp : x = p
    · rw [if_pos hxp, Option.some_inj] at hn
      rw [← hn, addChild_parent_id] at hq'
      obtain ⟨mm, hmm⟩ := hpl p m hm q hq'
      exact hget_exists q mm hmm
    · rw [if_neg hxp] at hn
      by_cases hxd : x = d.id
      · rw [if_pos hxd, Option.some_inj] at hn
        rw [← hn, init_parent_id, hp, Option.some_inj] at hq'
        refine ⟨m.addChild d.id, ?_⟩
        rw [hget q, if_pos hq'.symm]
      · rw [if_neg hxd] at hn
        obtain ⟨mm, hmm⟩ := hpl x n hn q hq'
        exact hget_exists q mm hmm
  · intro pid P hP
    rw [hget pid] at hP
    by_cases hpidp : pid = p
    · subst hpidp
      rw [if_pos rfl, Option.some_inj] at hP
      obtain ⟨hnodup, hiff⟩ := hce pid m hm
      rw [← hP, addChild_children]
      constructor
      · rw [List.nodup_append]
        refine ⟨hnodup, List.nodup_singleton _, ?_⟩
        intro a ha hb
        rw [List.mem_singleton] at hb
        rw [hb] at ha
        exact hdnim ha
      · intro c
        rw [List.mem_append, List.mem_singleton]
        constructor
        · rintro (hcm | hcd)
          · obtain ⟨C, hC, hCp⟩ := (hiff c).1 hcm
            have hcd2 : c ≠ d.id := by
              intro hh
              rw [hh, hnew] at hC
              exact absurd hC (by simp)
            by_cases hcp : c = pid
            · refine ⟨m.addChild d.id, by rw [hget c, if_pos hcp], ?_⟩
              rw [addChild_parent_id]
              rw [hcp] at hC
              rw [hm, Option.some_inj] at hC
              rw [hC]
              exact hCp
            · exact ⟨C, by rw [hget c, if_neg hcp, if_neg hcd2]; exact hC, hCp⟩
          · subst hcd
            refine ⟨AccessibilityNode.init d,
              by rw [hget d.id, if_neg (Ne.symm hpne), if_pos rfl], ?_⟩
            rw [init_parent_id, hp]
        · rintro ⟨C, hC, hCp⟩
          rw [hget c] at hC
          by_cases hcp : c = pid
          · rw [if_pos hcp, Option.some_inj] at hC
            rw [← hC, addChild_parent_id] at hCp
            left
            rw [hcp]
            exact (hiff pid).2 ⟨m, hm, hCp⟩
          · rw [if_neg hcp] at hC
            by_cases hcd : c = d.id
            · right
              exact hcd
            · rw [if_neg hcd] at hC
              left
              exact (hiff c).2 ⟨C, hC, hCp⟩
    · rw [if_neg hpidp] at hP
      by_cases hpidd : pid = d.id
      · subst hpidd
        rw [if_pos rfl, Option.some_inj] at hP
        rw [← hP, init_children]
        refine ⟨List.nodup_nil, ?_⟩
        intro c
        simp only [List.not_mem_nil, false_iff]
        rintro ⟨C, hC, hCp⟩
        rw [hget c] at hC
        by_cases hcp : c = p
        · rw [if_pos hcp, Option.some_inj] at hC
          rw [← hC, addChild_parent_id] at hCp
          obtain ⟨mm, hmm⟩ := hpl p m hm d.id hCp
          rw [hnew] at hmm
          exact absurd hmm (by simp)
        · rw [if_neg hcp] at hC
          by_cases hcd : c = d.id
          · rw [if_pos hcd, Option.some_inj] at hC
            rw [← hC, init_parent_id, hp, Option.some_inj] at hCp
            exact hpne hCp
          · rw [if_neg hcd] at hC
            obtain ⟨mm, hmm⟩ := hpl c C hC d.id hCp
            rw [hnew] at hmm
            exact absurd hmm (by simp)
      · rw [if_neg hpidd] at hP
        obtain ⟨hnodup, hiff⟩ := hce pid P hP
        refine ⟨hnodup, ?_⟩
        intro c
        rw [hiff c]
        constructor
        · rintro ⟨C, hC, hCp⟩
          have hcd2 : c ≠ d.id := by
            intro hh
            rw [hh, hnew] at hC
            exact absurd hC (by simp)
          by_cases hcp : c = p
          · refine ⟨m.addChild d.id, by rw [hget c, if_pos hcp], ?_⟩
            rw [addChild_parent_id]
            rw [hcp] at hC
            rw [hm, Option.some_inj] at hC
            rw [hC]
            exact hCp
          · exact ⟨C, by rw [hget c, if_neg hcp, if_neg hcd2]; exact hC, hCp⟩
        · rintro ⟨C, hC, hCp⟩
          rw [hget c] at hC
          by_cases hcp : c = p
          · rw [if_pos hcp, Option.some_inj] at hC
            rw [← hC, addChild_parent_id] at hCp
            rw [hcp]
            exact ⟨m, hm, hCp⟩
          · rw [if_neg hcp] at hC
            by_cases hcd : c = d.id
            · rw [if_pos hcd, Option.some_inj] at hC
              rw [← hC, init_parent_id, hp, Option.some_inj] at hCp
              exact absurd hCp.symm hpidp
            · rw [if_neg hcd] at hC
              exact ⟨C, hC, hCp⟩

theorem removeNode_enabled (s : Bridge) (id : String) (node : AccessibilityNode)
    (he : s.enabled = true) (hg : mapGet s.nodes id = some node) :
    (s.removeNode id).enabled = true := by
  rw [Bridge.removeNode]
  simp only [he, Bool.not_true, Bool.false_eq_true, if_false, hg]
  cases node.parent_id with
  | none => split <;> split <;> rfl
  | some pid =>
    cases hq : mapGet (mapRemove s.nodes id) pid with
    | none => simp only [hq] ; split <;> split <;> rfl
    | some q => simp only [hq] ; split <;> split <;> rfl

/-- Removing a node that no live node references as parent preserves the
tree invariant. -/
theorem treeInv_remove_leaf (s : Bridge) (id : String)
    (hleaf : ∀ cid n, mapGet s.nodes cid = some n → n.parent_id ≠ some id)
    (h : TreeInv s) : TreeInv (s.removeNode id) := by
  obtain ⟨hen, hnd, hkm, hpl, hce⟩ := h
  cases hg : mapGet s.nodes id with
  | none =>
    rw [removeNode_unknown s id hg]
    exact ⟨hen, hnd, hkm, hpl, hce⟩
  | some node =>
    have hrm : mapGet (mapRemove s.nodes id) id = Option.none :=
      mapGet_mapRemove_self s.nodes id hnd
    have hnodeid : node.id = id := hkm id node hg
    cases hpp : node.parent_id with
    | none =>
      have hget : ∀ x, mapGet (s.removeNode id).nodes x =
          if x = id then Option.none else mapGet s.nodes x := by
        intro x
        rw [removeNode_nodes_noparent s id node hen hg hpp]
        by_cases hx : x = id
        · subst hx
          rw [if_pos rfl, hrm]
        · rw [if_neg hx, mapGet_mapRemove_ne s.nodes id x hx]
      refine ⟨removeNode_enabled s id node hen hg,
        keysNodup_removeNode s id hnd, ?_, ?_, ?_⟩
      · intro x n hn
        rw [hget x] at hn
        by_cases hx : x = id
        · rw [if_pos hx] at hn
          exact absurd hn (by simp)
        · rw [if_neg hx] at hn
          exact hkm x n hn
      · intro x n hn qq hq'
        rw [hget x] at hn
        by_cases hx : x = id
        · rw [if_pos hx] at hn
          exact absurd hn (by simp)
        · rw [if_neg hx] at hn
          have hqid : qq ≠ id := by
            intro hh
            rw [hh] at hq'
            exact hleaf x n hn hq'
          obtain ⟨mm, hmm⟩ := hpl x n hn qq hq'
          refine ⟨mm, ?_⟩
          rw [hget qq, if_neg hqid]
          exact hmm
      · intro pid2 P hP
        rw [hget pid2] at hP
        by_cases hpid2 : pid2 = id
        · rw [if_pos hpid2] at hP
          exact absurd hP (by simp)
        · rw [if_neg hpid2] at hP
          obtain ⟨hnodup, hiff⟩ := hce pid2 P hP
          refine ⟨hnodup, ?_⟩
          intro c
          rw [hiff c]
          constructor
          · rintro ⟨C, hC, hCp⟩
            have hcid : c ≠ id := by
              intro hh
              rw [hh] at hC
              rw [hg, Option.some_inj] at hC
              rw [hC] at hpp
              rw [hpp] at hCp
              exact absurd hCp (by simp)
            refine ⟨C, ?_, hCp⟩
            rw [hget c, if_neg hcid]
            exact hC
          · rintro ⟨C, hC, hCp⟩
            rw [hget c] at hC
            by_cases hcid : c = id
            · rw [if_pos hcid] at hC
              exact absurd hC (by simp)
            · rw [if_neg hcid] at hC
              exact ⟨C, hC, hCp⟩
    | some pid =>
      have hpidne : pid ≠ id := by
        intro hh
        rw [hh] at hpp
        exact hleaf id node hg hpp
      obtain ⟨q0, hq0⟩ := hpl id node hg pid hpp
      have hq : mapGet (mapRemove s.nodes id) pid = some q0 := by
        rw [mapGet_mapRemove_ne s.nodes id pid hpidne]
        exact hq0
      have hget : ∀ x, mapGet (s.removeNode id).nodes x =
          if x = pid then some (q0.removeChild node.id)
          else if x = id then Option.none
          else mapGet s.nodes x := by
        intro x
        rw [removeNode_nodes_parent_live s id pid node q0 hen hg hpp hq]
        by_cases hxp : x = pid
        · subst hxp
          rw [if_pos rfl, mapGet_mapModify_self, hq]
          rfl
        · rw [if_neg hxp, mapGet_mapModify_ne _ pid x _ hxp]
          by_cases hx : x = id
          · subst hx
            rw [if_pos rfl, hrm]
          · rw [if_neg hx, mapGet_mapRemove_ne s.nodes id x hx]
      have hkeep : ∀ y C, mapGet s.nodes y = some C → y ≠ id →
          ∃ C2, mapGet (s.removeNode id).nodes y = some C2 := by
        intro y C hC hy
        rw [hget y]
        by_cases hyp : y = pid
        · exact ⟨q0.removeChild node.id, by rw [if_pos hyp]⟩
        · exact ⟨C, by rw [if_neg hyp, if_neg hy]; exact hC⟩
      refine ⟨removeNode_enabled s id node hen hg,
        keysNodup_removeNode s id hnd, ?_, ?_, ?_⟩
      · intro x n hn
        rw [hget x] at hn
        by_cases hxp : x = pid
        · rw [if_pos hxp, Option.some_inj] at hn
          rw [← hn, removeChild_id, hkm pid q0 hq0, hxp]
        · rw [if_neg hxp] at hn
          by_cases hx : x = id
          · rw [if_pos hx] at hn
            exact absurd hn (by simp)
          · rw [if_neg hx] at hn
            exact hkm x n hn
      · intro x n hn qq hq'
        rw [hget x] at hn
        by_cases hxp : x = pid
        · rw [if_pos hxp, Option.some_inj] at hn
          rw [← hn, removeChild_parent_id_eq] at hq'
          have hqid : qq ≠ id := by
            intro hh
            rw [hh] at hq'
            exact hleaf pid q0 hq0 hq'
          obtain ⟨mm, hmm⟩ := hpl pid q0 hq0 qq hq'
          exact hkeep qq mm hmm hqid
        · rw [if_neg hxp] at hn
          by_cases hx : x = id
          · rw [if_pos hx] at hn
            exact absurd hn (by simp)
          · rw [if_neg hx] at hn
            have hqid : qq ≠ id := by
              intro hh
              rw [hh] at hq'
              exact hleaf x n hn hq'
            obtain ⟨mm, hmm⟩ := hpl x n hn qq hq'
            exact hkeep qq mm hmm hqid
      · intro pid2 P hP
        rw [hget pid2] at hP
        by_cases hpid2p : pid2 = pid
        · subst hpid2p
          rw [if_pos rfl, Option.some_inj] at hP
          obtain ⟨hnodup, hiff⟩ := hce pid2 q0 hq0
          rw [← hP, removeChild_children, hnodeid]
          refine ⟨hnodup.erase id, ?_⟩
          intro c
          rw [hnodup.mem_erase_iff]
          constructor
          · rintro ⟨hcid, hcm⟩
            obtain ⟨C, hC, hCp⟩ := (hiff c).1 hcm
            by_cases hcp : c = pid2
            · refine ⟨q0.removeChild node.id, by rw [hget c, if_pos hcp], ?_⟩
              rw [removeChild_parent_id_eq]
              rw [hcp] at hC
              rw [hq0, Option.some_inj] at hC
              rw [hC]
              exact hCp
            · refine ⟨C, ?_, hCp⟩
              rw [hget c, if_neg hcp, if_neg hcid]
              exact hC
          · rintro ⟨C, hC, hCp⟩
            rw [hget c] at hC
            by_cases hcp : c = pid2
            · rw [if_pos hcp, Option.some_inj] at hC
              rw [← hC, removeChild_parent_id_eq] at hCp
              refine ⟨by rw [hcp]; exact hpidne, ?_⟩
              rw [hcp]
              exact (hiff pid2).2 ⟨q0, hq0, hCp⟩
            · rw [if_neg hcp] at hC
              by_cases hcid : c = id
              · rw [if_pos hcid] at hC
                exact absurd hC (by simp)
              · rw [if_neg hcid] at hC
                exact ⟨hcid, (hiff c).2 ⟨C, hC, hCp⟩⟩
        · rw [if_neg hpid2p] at hP
          by_cases hpid2 : pid2 = id
          · rw [if_pos hpid2] at hP
            exact absurd hP (by simp)
          · rw [if_neg hpid2] at hP
            obtain ⟨hnodup, hiff⟩ := hce pid2 P hP
            refine ⟨hnodup, ?_⟩
            intro c
            rw [hiff c]
            constructor
            · rintro ⟨C, hC, hCp⟩
              have hcid : c ≠ id := by
                intro hh
                rw [hh] at hC
                rw [hg, Option.some_inj] at hC
                rw [hC] at hpp
                rw [hpp, Option.some_inj] at hCp
                exact hpid2p hCp.symm
              by_cases hcp : c = pid
              · refine ⟨q0.removeChild node.id, by rw [hget c, if_pos hcp], ?_⟩
                rw [removeChild_parent_id_eq]
                rw [hcp] at hC
                rw [hq0, Option.some_inj] at hC
                rw [hC]
                exact hCp
              · refine ⟨C, ?_, hCp⟩
                rw [hget c, if_neg hcp, if_neg hcid]
                exact hC
            · rintro ⟨C, hC, hCp⟩
              rw [hget c] at hC
              by_cases hcp : c = pid
              · rw [if_pos hcp, Option.some_inj] at hC
                rw [← hC, removeChild_parent_id_eq] at hCp
                rw [hcp]
                exact ⟨q0, hq0, hCp⟩
              · rw [if_neg hcp] at hC
                by_cases hcid : c = id
                · rw [if_pos hcid] at hC
                  exact absurd hC (by simp)
                · rw [if_neg hcid] at hC
                  exact ⟨C, hC, hCp⟩
/-- Well-ordered operation sequences: every upsert of an unseen id
names a live parent or none, every re-upsert keeps the stored node's
`parent_id`, and every removal targets an id that no live node's
`parent_id` references. These are exactly the orders under which the
store's incremental child-list maintenance is consistent. -/
inductive OrderedOps : Bridge → List StoreOp → Prop where
  | nil (s : Bridge) : OrderedOps s []
  | upsert_new (s : Bridge) (d : NodeData) (ops : List StoreOp)
      (hnew : mapGet s.nodes d.id = Option.none)
      (hpar : d.parent_id = Option.none ∨
        ∃ p m, d.parent_id = some p ∧ mapGet s.nodes p = some m)
      (hrest : OrderedOps (applyOp s (.upsert d)) ops) :
      OrderedOps s (.upsert d :: ops)
  | upsert_old (s : Bridge) (d : NodeData) (n : AccessibilityNode)
      (ops : List StoreOp)
      (hold : mapGet s.nodes d.id = some n)
      (hpar : d.parent_id = n.parent_id)
      (hrest : OrderedOps (applyOp s (.upsert d)) ops) :
      OrderedOps s (.upsert d :: ops)
  | remove_leaf (s : Bridge) (id : String) (ops : List StoreOp)
      (hleaf : ∀ cid n, mapGet s.nodes cid = some n → n.parent_id ≠ some id)
      (hrest : OrderedOps (applyOp s (.remove id)) ops) :
      OrderedOps s (.remove id :: ops)

theorem treeInv_ordered (s : Bridge) (ops : List StoreOp)
    (hord : OrderedOps s ops) (h : TreeInv s) : TreeInv (applyOps s ops) := by
  induction hord with
  | nil s => exact h
  | upsert_new s d ops hnew hpar hrest ih =>
    refine ih ?_
    rcases hpar with hp | ⟨p, m, hp, hm⟩
    · exact treeInv_upsert_new_root s d hnew hp h
    · exact treeInv_upsert_new_parent s d p m hnew hp hm h
  | upsert_old s d n ops hold hpar hrest ih =>
    exact ih (treeInv_upsert_old s d n hold hpar h)
  | remove_leaf s id ops hleaf hrest ih =>
    exact ih (treeInv_remove_leaf s id hleaf h)

theorem treeInv_initBridge : TreeInv Bridge.initBridge := by
  refine ⟨rfl, by simp [KeysNodup, Bridge.initBridge, mapKeys], ?_, ?_, ?_⟩
  · intro id n hn
    exact absurd hn (by simp [Bridge.initBridge, mapGet])
  · intro id n hn
    exact absurd hn (by simp [Bridge.initBridge, mapGet])
  · intro pid P hP
    exact absurd hP (by simp [Bridge.initBridge, mapGet])

/-- C3 as amended: for every well-ordered sequence of upsert and remove
operations (each new node's parent live or none at insertion time,
re-upserts keeping `parent_id`, removals only of ids no live node
references as parent) starting from the empty enabled store, every node
P in the store has a duplicate-free `children_ids` holding exactly the
ids of the live nodes whose `parent_id` equals P's id. The orders the
original claim explicitly includes (child upserted before its parent; a
re-upsert changing `parent_id`) falsify the invariant — see the
counterexample. -/
theorem C3_children_consistency_amended (ops : List StoreOp)
    (hord : OrderedOps Bridge.initBridge ops) :
    ∀ pid P, mapGet (applyOps Bridge.initBridge ops).nodes pid = some P →
      P.children_ids.Nodup ∧
      (∀ c, c ∈ P.children_ids ↔
        ∃ C, mapGet (applyOps Bridge.initBridge ops).nodes c = some C ∧
          C.parent_id = some pid) :=
  fun pid P hP =>
    (treeInv_ordered Bridge.initBridge ops hord treeInv_initBridge).2.2.2.2 pid P hP

/-- C3 witness: concrete instance — the parent-then-child store: "p"'s
children list is duplicate-free and "c" belongs to it exactly because
"c" is live with `parent_id = "p"`. -/
theorem C3_witness :
    c7P.children_ids.Nodup ∧
    ("c" ∈ c7P.children_ids ↔
      ∃ C, mapGet c7Store.nodes "c" = some C ∧ C.parent_id = some "p") := by
  have hord : OrderedOps Bridge.initBridge
      [.upsert (sampleSnap "p" Option.none false Option.none),
       .upsert (sampleSnap "c" (some "p") false Option.none)] := by
    refine OrderedOps.upsert_new _ _ _ rfl (Or.inl rfl) ?_
    refine OrderedOps.upsert_new _ _ _ rfl
      (Or.inr ⟨"p", AccessibilityNode.init (sampleSnap "p" Option.none false Option.none),
        rfl, rfl⟩) ?_
    exact OrderedOps.nil _
  have h := C3_children_consistency_amended
    [.upsert (sampleSnap "p" Option.none false Option.none),
     .upsert (sampleSnap "c" (some "p") false Option.none)] hord "p" c7P (by rfl)
  exact ⟨h.1, h.2 "c"⟩
end OpenTUI
